import Mathlib

/-!
netshare/drivers: the reference-counted mount registry and the CephFS driver.

A shallow embedding of `mounts.go`, `ceph.go`, `util.go` and `keyctl.go`.

* The registry (`mountManager`) is a map from volume name to `mount` record.  The Go
  map `map[string]*mount` is a function `String → Option mount`; two registries are
  equal when they hold the same record under every name.
* `map[string]string` is an association list read by first match.
* Go's `int` connection counter is a mathematical integer: it moves by one per call,
  so wrap-around at the machine word is out of reach of any run.
* Everything behind the process boundary (the shell, the file system, the kernel
  keyring, the log level) is an explicit `World` whose fields give the answer of each
  external operation; every operation returns, next to its result, the list of
  external operations it performed, in order.
* Of the standard library, `strings.Split` (one-character separators), `strings.Join`,
  `strings.Replace` (first occurrence), `strings.ToLower` (on `A` to `Z`) and
  `strconv.Atoi` (64-bit `int`, error dropped) are written out; `filepath.Join` and the
  line scanner are fields of `World`.
-/

namespace Netshare

/-! ## Option maps -/

/-- Go `map[string]string`.  A nil map and an empty map are both `[]`: the source only
reads them through `len` and indexing, which do not tell them apart. -/
abbrev Opts := List (String × String)

/-- Go index expression `opts[key]`: the stored value, or `""` when the key is absent. -/
def Opts.index (opts : Opts) (key : String) : String :=
  (opts.lookup key).getD ""

/-- Modelled from the spec: the package variable `EmptyMap` is declared outside the
files at hand (ceph.go keeps a commented-out copy, `EmptyMap = map[string]string{}`);
it is the empty option map. -/
def EmptyMap : Opts := []

def ShareOpt : String := "share"
def CreateOpt : String := "create"
def CephOptions : String := "cephopts"

/-! ## mounts.go -/

structure mount where
  name : String
  hostdir : String
  connections : Int
  opts : Opts
  managed : Bool
deriving DecidableEq, Repr

structure mountManager where
  mounts : String → Option mount

/-- Go `m.mounts[name] = c`. -/
def mountManager.store (m : mountManager) (name : String) (c : mount) : mountManager :=
  ⟨fun k => if k = name then some c else m.mounts k⟩

/-- Go `delete(m.mounts, name)`. -/
def mountManager.remove (m : mountManager) (name : String) : mountManager :=
  ⟨fun k => if k = name then none else m.mounts k⟩

def NewVolumeManager : mountManager :=
  ⟨fun _ => none⟩

def mountManager.HasMount (m : mountManager) (name : String) : Bool :=
  (m.mounts name).isSome

def mountManager.HasOptions (m : mountManager) (name : String) : Bool :=
  match m.mounts name with
  | some c => decide (c.opts.length > 0)
  | none => false

def mountManager.HasOption (m : mountManager) (name key : String) : Bool :=
  if m.HasOptions name then
    match m.mounts name with
    | some c => (c.opts.lookup key).isSome
    | none => false
  else false

def mountManager.GetOptions (m : mountManager) (name : String) : Opts :=
  if m.HasOptions name then
    match m.mounts name with
    | some c => c.opts
    | none => []
  else []

def mountManager.GetOption (m : mountManager) (name key : String) : String :=
  if m.HasOption name key then
    match m.mounts name with
    | some c => c.opts.index key
    | none => ""
  else ""

def mountManager.IsActiveMount (m : mountManager) (name : String) : Bool :=
  match m.mounts name with
  | some c => decide (c.connections > 0)
  | none => false

def mountManager.Count (m : mountManager) (name : String) : Int :=
  match m.mounts name with
  | some c => c.connections
  | none => 0

/-- `Increment`: the registry afterwards and the returned count. -/
def mountManager.Increment (m : mountManager) (name : String) : mountManager × Int :=
  match m.mounts name with
  | some c => (m.store name { c with connections := c.connections + 1 }, c.connections + 1)
  | none => (m, 0)

/-- `Decrement`: the registry afterwards and the returned value (always 0). -/
def mountManager.Decrement (m : mountManager) (name : String) : mountManager × Int :=
  match m.mounts name with
  | some c =>
    if c.connections > 0 then
      (m.store name { c with connections := c.connections - 1 }, 0)
    else (m, 0)
  | none => (m, 0)

def mountManager.Add (m : mountManager) (name hostdir : String) : mountManager :=
  match m.mounts name with
  | some _ => (m.Increment name).1
  | none =>
    m.store name { name := name, hostdir := hostdir, managed := false, connections := 1, opts := [] }

/-- `Create`: the registry afterwards and the returned record. -/
def mountManager.Create (m : mountManager) (name hostdir : String) (opts : Opts) :
    mountManager × mount :=
  match m.mounts name with
  | some c =>
    if c.connections > 0 then
      (m.store name { c with opts := opts }, { c with opts := opts })
    else
      let mnt : mount :=
        { name := name, hostdir := hostdir, managed := true, opts := opts, connections := 0 }
      (m.store name mnt, mnt)
  | none =>
    let mnt : mount :=
      { name := name, hostdir := hostdir, managed := true, opts := opts, connections := 0 }
    (m.store name mnt, mnt)

/-- `Delete`: the registry afterwards and the returned error (`none` is Go's `nil`). -/
def mountManager.Delete (m : mountManager) (name : String) : mountManager × Option String :=
  if m.HasMount name then
    if m.Count name < 1 then (m.remove name, none)
    else (m, some "Volume is currently in use")
  else (m, none)

def mountManager.DeleteIfNotManaged (m : mountManager) (name : String) :
    mountManager × Option String :=
  match m.mounts name with
  | some c =>
    if m.HasMount name && !m.IsActiveMount name && !c.managed then m.Delete name
    else (m, none)
  | none => (m, none)

/-! ## Strings (the parts of Go's `strings` package the drivers use) -/

/-- Pieces of a character list cut at every occurrence of the separator character. -/
def splitChars (sep : Char) : List Char → List (List Char)
  | [] => [[]]
  | c :: cs =>
    if c = sep then [] :: splitChars sep cs
    else
      match splitChars sep cs with
      | [] => [[c]]
      | p :: ps => (c :: p) :: ps

/-- Go `strings.Split(s, sep)` for a one-character separator (the source splits on
`"/"`, `","` and `" "` only). -/
def Split (s : String) (sep : Char) : List String :=
  (splitChars sep s.data).map String.mk

/-- Go `strings.Join(elems, sep)`. -/
def Join (elems : List String) (sep : String) : String :=
  sep.intercalate elems

/-- Replacement of the first occurrence of `old`, on characters. -/
def replaceFirstChars (old new : List Char) : List Char → List Char
  | [] => if old = [] then new else []
  | c :: cs =>
    if old.isPrefixOf (c :: cs) then new ++ (c :: cs).drop old.length
    else c :: replaceFirstChars old new cs

/-- Go `strings.Replace(s, old, new, 1)`. -/
def Replace1 (s old new : String) : String :=
  String.mk (replaceFirstChars old.data new.data s.data)

/-- Go `strings.ToLower`, on the letters `A` to `Z`.  Go also lowers letters outside
ASCII, but the only such letters it lowers to an ASCII letter are U+0130 (to `i`) and
U+212A (to `k`), neither of which is a letter of `yes` or `true`, so the comparison in
`GetOptionAsBool` has the same outcome. -/
def ToLower (s : String) : String :=
  String.mk (s.data.map Char.toLower)

def mountManager.GetOptionAsBool (m : mountManager) (name key : String) : Bool :=
  let rv := ToLower (m.GetOption name key)
  if rv = "yes" ∨ rv = "true" then true else false

/-- The two texts are equal when letter case is ignored. -/
def sameIgnoringCase (a b : String) : Prop :=
  a.data.map Char.toLower = b.data.map Char.toLower

/-! ## The world outside the process -/

/-- Answer of `os.Lstat`: the path does not exist, another failure, or file info. -/
inductive LstatResult where
  | notExist
  | failed (msg : String)
  | info (isDir : Bool)
deriving DecidableEq, Repr

/-- One external operation performed by the driver. -/
inductive Effect where
  | lstat (path : String)
  | mkdirAll (path : String)
  | exec (cmd : String)
  | readFile (path : String)
  | openFile (path : String)
  | keyctlSearch (type description : String)
  | keyctlUnlink (key : Int)
  | removeAll (path : String)
deriving DecidableEq, Repr

/-- Answers of the host to each external operation; `none` is Go's `nil` error and
`some msg` an error whose `Error()` text is `msg`. -/
structure World where
  /-- Whether `log.GetLevel() == log.DebugLevel`.  Debug is the most verbose level of
  the logging package the drivers import, so `log.Debugf` writes a line exactly when
  this holds. -/
  debugLevel : Bool
  /-- The standard library's `filepath.Join`. -/
  join : List String → String
  lstat : String → LstatResult
  mkdirAll : String → Option String
  /-- Error of `exec.Command("sh", "-c", cmd).CombinedOutput()`. -/
  sh : String → Option String
  /-- Text that `ioutil.ReadFile` hands back (empty when it fails). -/
  readFile : String → String
  /-- The `KEYCTL_SEARCH` system call on the user keyring: the key found, or `none`
  when the call fails. -/
  keyctlSearch : String → String → Option Int
  removeAll : String → Option String
  /-- The lines a `bufio.Scanner` yields from the file after `os.Open`, or `none` when
  the file cannot be opened. -/
  scanLines : String → Option (List String)

/-- A value together with the external operations performed to obtain it. -/
structure Ran (α : Type) where
  ret : α
  effects : List Effect

/-! ## util.go -/

def createDest (w : World) (dest : String) : Ran (Option String) :=
  match w.lstat dest with
  | .notExist =>
    match w.mkdirAll dest with
    | some err =>
      ⟨some ("mkdir failed for " ++ dest ++ " with error: \x27" ++ err ++ "\x27"),
        [.lstat dest, .mkdirAll dest]⟩
    | none => ⟨none, [.lstat dest, .mkdirAll dest]⟩
  | .failed err =>
    ⟨some ("lstat failed for " ++ dest ++ " with error: \x27" ++ err ++ "\x27"), [.lstat dest]⟩
  | .info isDir =>
    if !isDir then ⟨some (dest ++ " already exist and it\x27s not a directory"), [.lstat dest]⟩
    else ⟨none, [.lstat dest]⟩

def mountpoint (w : World) (elem : List String) : String :=
  w.join elem

def run (w : World) (cmd : String) : Ran (Option String) :=
  ⟨w.sh cmd, [.exec cmd]⟩

/-! ## keyctl.go -/

/-- `syscall.BytePtrFromString` fails exactly on a string with a NUL byte. -/
def hasNul (s : String) : Bool :=
  s.data.contains (Char.ofNat 0)

/-- `keyctl_search`: the pair `(result, keyValue)`. -/
def keyctl_search (w : World) (name keyName : String) : Ran (Int × Int) :=
  if hasNul name then ⟨(0, 0), []⟩
  else if hasNul keyName then ⟨(0, 0), []⟩
  else
    match w.keyctlSearch name keyName with
    | none => ⟨(0, 0), [.keyctlSearch name keyName]⟩
    | some r0 => ⟨(1, r0), [.keyctlSearch name keyName]⟩

def keyctl_unlink (keyValue : Int) : Ran Unit :=
  ⟨(), [.keyctlUnlink keyValue]⟩

/-! ## mounts.go: reconciliation -/

/-- Go `strconv.Atoi` with its error dropped, as `BuildReferences` calls it, for a
64-bit `int`: an optional sign and decimal digits; a text that is not a number gives 0
and a number outside the range of `int` gives the nearest end of the range. -/
def Atoi (s : String) : Int :=
  let signed := s.data.head? = some '-' ∨ s.data.head? = some '+'
  let body := if signed then s.data.tail else s.data
  if body = [] ∨ body.all Char.isDigit = false then 0
  else
    let v : Nat := body.foldl (fun acc ch => acc * 10 + (ch.toNat - 48)) 0
    if s.data.head? = some '-' then
      if v > 2 ^ 63 then -(2 ^ 63 : Int) else -(v : Int)
    else
      if v > 2 ^ 63 - 1 then (2 ^ 63 - 1 : Int) else (v : Int)

/-- The inner loop of `BuildReferences`: `Add(name, mountpoint(rootPath, name))`, the
given number of times. -/
def mountManager.addRefs (m : mountManager) (w : World) (rootPath name : String) :
    Nat → mountManager
  | 0 => m
  | k + 1 => mountManager.addRefs (m.Add name (mountpoint w [rootPath, name])) w rootPath name k

/-- The body of the scanner loop of `BuildReferences`, for one line of the file. -/
def mountManager.refsLine (m : mountManager) (w : World) (rootPath line : String) :
    mountManager :=
  match Split line ' ' with
  | [name, count] =>
    if Atoi count > 0 then m.addRefs w rootPath name (Atoi count).toNat else m
  | _ => m

/-- `BuildReferences`: the registry afterwards and the returned error. -/
def mountManager.BuildReferences (m : mountManager) (w : World) (rootPath driverType : String) :
    Ran (mountManager × Option String) :=
  let command := "/usr/sbin/cosmos/build_volume_refs.sh " ++ driverType ++ " " ++ rootPath
  let r := run w command
  match r.ret with
  | some _ => ⟨(m, some ("Error executing command: " ++ command)), r.effects⟩
  | none =>
    match w.scanLines ("/tmp/docker-volume-refs-" ++ driverType) with
    | none => ⟨(m, none), r.effects ++ [.openFile ("/tmp/docker-volume-refs-" ++ driverType)]⟩
    | some lines =>
      ⟨(lines.foldl (fun m line => m.refsLine w rootPath line) m, none),
        r.effects ++ [.openFile ("/tmp/docker-volume-refs-" ++ driverType)]⟩

/-! ## ceph.go -/

/-- The fields of `volume.MountRequest`. -/
structure MountRequest where
  Name : String
  ID : String
deriving DecidableEq, Repr

/-- The fields of `volume.UnmountRequest`. -/
structure UnmountRequest where
  Name : String
  ID : String
deriving DecidableEq, Repr

/-- The fields of `volume.Response` the driver fills; `Err = ""` is "no error". -/
structure Response where
  Mountpoint : String := ""
  Err : String := ""
deriving DecidableEq, Repr

/-- The driver: `root` and `mountm` come from the embedded `volumeDriver`. -/
structure cephDriver where
  root : String
  mountm : mountManager
  username : String
  password : String
  context : String
  cephmount : String
  cephport : String
  localmount : String
  cephopts : Opts

/-- Outcome of a driver request: the response, the registry afterwards, the external
operations performed in order, and the lines `mountVolume` writes with `log.Debugf`. -/
structure Done where
  resp : Response
  mountm : mountManager
  effects : List Effect
  logs : List String

def cephDriver.UnlinkKey (_n : cephDriver) (w : World) (keyName : String) : Ran Unit :=
  let s := keyctl_search w "ceph" keyName
  if s.ret.1 ≠ 0 then ⟨(), s.effects ++ (keyctl_unlink s.ret.2).effects⟩
  else ⟨(), s.effects⟩

def cephDriver.fixSource (n : cephDriver) (name _id : String) : String :=
  if n.mountm.HasOption name ShareOpt then n.mountm.GetOption name ShareOpt
  else
    match Split name '/' with
    | [] => ""
    | s0 :: rest => Join ((s0 ++ ":" ++ n.cephport ++ ":") :: rest) "/"

def cephDriver.readSecretFile (_n : cephDriver) (w : World) (secretFile : String) : Ran String :=
  ⟨w.readFile secretFile, [.readFile secretFile]⟩

def cephDriver.mountOptions (n : cephDriver) (src : Opts) : Opts :=
  if n.cephopts.length = 0 ∧ src.length = 0 then EmptyMap
  else src ++ n.cephopts

/-- The loop of `mountVolume` over `addrList`: `srcDir` so far, the entries left. -/
def srcDirLoop (cephPort : String) : String → List String → String
  | srcDir, [] => srcDir
  | srcDir, a :: rest =>
    let srcDir1 := srcDir ++ (a ++ cephPort)
    srcDirLoop cephPort (if rest.length > 0 then srcDir1 ++ "," else srcDir1) rest

/-- `mountVolume`: the returned error, the external operations, and the line that
`log.Debugf` writes just before the command is run: one line at debug level, nothing
below it.  `len(s) != 0` is `s ≠ ""`; the `fmt.Println` of the extra options to
standard output is left out. -/
def cephDriver.mountVolume (n : cephDriver) (w : World) (name source dest : String) :
    Ran (Option String) × List String :=
  let options := n.mountOptions (n.mountm.GetOptions name)
  let opts := match options.lookup CephOptions with
    | some val => "-o " ++ val
    | none => ""
  let mountCmd := "mount"
  let username :=
    if options.index "name" ≠ "" then "name=" ++ options.index "name" else n.username
  if options.index "secretfile" ≠ "" ∧ options.index "secret" ≠ "" then
    (⟨some "Cannot pass secret and secretfile options together", []⟩, [])
  else
    let read : Ran String :=
      if options.index "secretfile" ≠ "" then
        let f := n.readSecretFile w (options.index "secretfile")
        ⟨"secret=" ++ f.ret, f.effects⟩
      else ⟨n.password, []⟩
    let passwd :=
      if options.index "secret" ≠ "" then "secret=" ++ options.index "secret" else read.ret
    let cephPort :=
      if options.index "port" ≠ "" then ":" ++ options.index "port" else ":6789"
    let srcDir :=
      if options.index "addr" ≠ "" then
        srcDirLoop cephPort "" (Split (options.index "addr") ',') ++ options.index "device"
      else source
    let cmd :=
      if w.debugLevel then
        (mountCmd ++ " -t ceph") ++ " " ++ srcDir ++ " -o \"" ++ n.context ++ "," ++ username
          ++ "," ++ passwd ++ " " ++ opts ++ "\" " ++ dest
      else
        mountCmd ++ " -t ceph " ++ srcDir ++ " -o \"" ++ n.context ++ "," ++ username
          ++ "," ++ passwd ++ "\" " ++ opts ++ " " ++ dest
    let r := run w cmd
    (⟨r.ret, read.effects ++ r.effects⟩,
      if w.debugLevel then ["exec: " ++ Replace1 cmd ("," ++ passwd) ",****" ++ "\n"]
      else [])

def cephDriver.Mount (n : cephDriver) (w : World) (r : MountRequest) : Done :=
  let hostdir := mountpoint w [n.root, r.Name]
  let source := n.fixSource r.Name r.ID
  if n.mountm.HasMount r.Name && decide (n.mountm.Count r.Name > 0) then
    ⟨{ Mountpoint := hostdir }, (n.mountm.Increment r.Name).1, [], []⟩
  else
    let mountm := n.mountm.Add r.Name hostdir
    let c := createDest w hostdir
    match c.ret with
    | some err => ⟨{ Err := err }, mountm, c.effects, []⟩
    | none =>
      let v := cephDriver.mountVolume { n with mountm := mountm } w r.Name source hostdir
      match v.1.ret with
      | some err => ⟨{ Err := err }, mountm, c.effects ++ v.1.effects, v.2⟩
      | none => ⟨{ Mountpoint := hostdir }, mountm, c.effects ++ v.1.effects, v.2⟩

def cephDriver.Unmount (n : cephDriver) (w : World) (r : UnmountRequest) : Done :=
  let hostdir := mountpoint w [n.root, r.Name]
  if n.mountm.HasMount r.Name && decide (n.mountm.Count r.Name > 1) then
    ⟨{}, (n.mountm.Decrement r.Name).1, [], []⟩
  else
    let mountm := if n.mountm.HasMount r.Name then (n.mountm.Decrement r.Name).1 else n.mountm
    let u := run w ("umount " ++ hostdir)
    match u.ret with
    | some err => ⟨{ Err := err }, mountm, u.effects, []⟩
    | none =>
      let mountm1 := (mountm.DeleteIfNotManaged r.Name).1
      let k := n.UnlinkKey w "client.cephFS"
      match w.removeAll hostdir with
      | some err =>
        ⟨{ Err := err }, mountm1, u.effects ++ k.effects ++ [.removeAll hostdir], []⟩
      | none => ⟨{}, mountm1, u.effects ++ k.effects ++ [.removeAll hostdir], []⟩

/-! ## Concrete hosts and drivers, for evaluating the definitions -/

/-- A host on which every external operation succeeds: fresh directories, commands
that exit with status 0, no cached key. -/
def calmWorld : World where
  debugLevel := false
  join := fun elem => "/".intercalate elem
  lstat := fun _ => .notExist
  mkdirAll := fun _ => none
  sh := fun _ => none
  readFile := fun _ => ""
  keyctlSearch := fun _ _ => none
  removeAll := fun _ => none
  scanLines := fun _ => none

/-- A host like `calmWorld` on which every shell command exits with status 32. -/
def failingShell : World :=
  { calmWorld with sh := fun _ => some "exit status 32" }

/-- A driver with an empty registry. -/
def freshDriver : cephDriver where
  root := "/mnt"
  mountm := NewVolumeManager
  username := "name=admin"
  password := "secret=s3cr3t"
  context := "rw"
  cephmount := "mon1"
  cephport := "6789"
  localmount := ""
  cephopts := []

/-- The shell commands among a list of external operations, in order. -/
def execs : List Effect → List String
  | [] => []
  | .exec cmd :: rest => cmd :: execs rest
  | _ :: rest => execs rest

/-- Every directory preparation, shell command and directory removal succeeds on this
host. -/
def World.allSucceed (w : World) : Prop :=
  (∀ dest, (createDest w dest).ret = none) ∧ (∀ cmd, w.sh cmd = none) ∧
    (∀ path, w.removeAll path = none)

/-- A request on one fixed volume name, carrying the request id. -/
inductive Call where
  | mount (id : String)
  | unmount (id : String)
deriving DecidableEq, Repr

/-- The driver serving one request for `name` on the host `w`. -/
def cephDriver.serve (n : cephDriver) (name : String) (w : World) : Call → Done
  | .mount id => n.Mount w ⟨name, id⟩
  | .unmount id => n.Unmount w ⟨name, id⟩

/-- The registry after the driver has served the requests in order, each on the host
as it is at the time of that request. -/
def cephDriver.serveAll (n : cephDriver) (name : String) : List (World × Call) → mountManager
  | [] => n.mountm
  | (w, c) :: rest =>
    cephDriver.serveAll { n with mountm := (n.serve name w c).mountm } name rest

/-- Mount calls not yet matched by a later Unmount call, given the number before the
call: a Mount adds one, an Unmount matches the latest open Mount if there is one. -/
def outstandingStep (k : Nat) : Call → Nat
  | .mount _ => k + 1
  | .unmount _ => k - 1

/-- Number of Mount calls of the sequence that no later Unmount call has matched. -/
def outstanding (calls : List Call) : Nat :=
  calls.foldl outstandingStep 0

/-- A driver like `freshDriver` whose registry holds the volume `vol`, created with the
given options. -/
def createdDriver (opts : Opts) : cephDriver :=
  { freshDriver with mountm := (NewVolumeManager.Create "vol" "/mnt/vol" opts).1 }

/-- A host like `calmWorld` on which every file reads as the text `abc` followed by a
newline. -/
def secretFileWorld : World :=
  { calmWorld with readFile := fun _ => "abc\n" }

/-- A host like `calmWorld` on which the file of volume references holds the given
lines. -/
def refsWorld (lines : List String) : World :=
  { calmWorld with scanLines := fun _ => some lines }

/-- The command line `mountVolume` formats with `fmt.Sprintf`, by log level, from the
composite source, the context, the user name, the credential, the extra options and
the destination. -/
def mountLine (debug : Bool) (srcDir context username passwd opts dest : String) : String :=
  if debug then
    "mount -t ceph " ++ srcDir ++ " -o \"" ++ context ++ "," ++ username ++ "," ++ passwd
      ++ " " ++ opts ++ "\" " ++ dest
  else
    "mount -t ceph " ++ srcDir ++ " -o \"" ++ context ++ "," ++ username ++ "," ++ passwd
      ++ "\" " ++ opts ++ " " ++ dest

/-- The user name `mountVolume` settles on for the given effective options. -/
def cephDriver.mountUser (n : cephDriver) (options : Opts) : String :=
  if options.index "name" ≠ "" then "name=" ++ options.index "name" else n.username

/-- The credential `mountVolume` settles on for the given effective options. -/
def cephDriver.mountPasswd (n : cephDriver) (w : World) (options : Opts) : String :=
  if options.index "secret" ≠ "" then "secret=" ++ options.index "secret"
  else if options.index "secretfile" ≠ "" then
    "secret=" ++ w.readFile (options.index "secretfile")
  else n.password

/-- The composite source `mountVolume` settles on for the given effective options. -/
def mountSrcDir (options : Opts) (source : String) : String :=
  if options.index "addr" ≠ "" then
    srcDirLoop (if options.index "port" ≠ "" then ":" ++ options.index "port" else ":6789") ""
      (Split (options.index "addr") ',') ++ options.index "device"
  else source

/-- The extra-options argument `mountVolume` settles on for the given effective
options. -/
def mountExtra (options : Opts) : String :=
  match options.lookup CephOptions with
  | some val => "-o " ++ val
  | none => ""

/-- The entries written one after the other with a comma between neighbours. -/
def commaList : List String → String
  | [] => ""
  | [h] => h
  | h :: rest => h ++ "," ++ commaList rest

/-- Every record of the registry has `connections >= 0`. -/
def mountManager.nonneg (m : mountManager) : Prop :=
  ∀ name c, m.mounts name = some c → 0 ≤ c.connections

/-! ## Registry lemmas -/

theorem execs_append (a b : List Effect) : execs (a ++ b) = execs a ++ execs b := by
  induction a with
  | nil => rfl
  | cons e a ih => cases e <;> simp [execs, ih]

theorem execs_UnlinkKey (n : cephDriver) (w : World) :
    execs (n.UnlinkKey w "client.cephFS").effects = [] := by
  unfold cephDriver.UnlinkKey keyctl_search keyctl_unlink
  cases w.keyctlSearch "ceph" "client.cephFS" <;> simp [hasNul, execs]


theorem mountManager.eq_of_mounts {a b : mountManager}
    (h : ∀ k, a.mounts k = b.mounts k) : a = b := by
  cases a; cases b
  simp only [mountManager.mk.injEq]
  exact funext h

@[simp] theorem mountManager.store_same (m : mountManager) (name : String) (c : mount) :
    (m.store name c).mounts name = some c := by
  simp [mountManager.store]

@[simp] theorem mountManager.store_other (m : mountManager) (name k : String) (c : mount)
    (h : k ≠ name) : (m.store name c).mounts k = m.mounts k := by
  simp [mountManager.store, h]

@[simp] theorem mountManager.remove_same (m : mountManager) (name : String) :
    (m.remove name).mounts name = none := by
  simp [mountManager.remove]

@[simp] theorem mountManager.remove_other (m : mountManager) (name k : String)
    (h : k ≠ name) : (m.remove name).mounts k = m.mounts k := by
  simp [mountManager.remove, h]

theorem mem_execs (cmd : String) (l : List Effect) :
    Effect.exec cmd ∈ l ↔ cmd ∈ execs l := by
  induction l with
  | nil => simp [execs]
  | cons e l ih => cases e <;> simp [execs, ih]

theorem execs_createDest (w : World) (dest : String) :
    execs (createDest w dest).effects = [] := by
  unfold createDest
  cases w.lstat dest with
  | notExist => cases w.mkdirAll dest <;> simp [execs]
  | failed msg => simp [execs]
  | info isDir => cases isDir <;> simp [execs]

/-- What `mountVolume` can do: refuse conflicting credentials before any external
operation, or run exactly one shell command, a `mount -t ceph` line, after at most a
read of the secret file, and return that command's outcome. -/
theorem mountVolume_cases (n : cephDriver) (w : World) (name source dest : String) :
    ((n.mountVolume w name source dest).1.ret =
        some "Cannot pass secret and secretfile options together" ∧
      (n.mountVolume w name source dest).1.effects = [] ∧
      (n.mountOptions (n.mountm.GetOptions name)).index "secretfile" ≠ "" ∧
      (n.mountOptions (n.mountm.GetOptions name)).index "secret" ≠ "") ∨
    (∃ rest pre, execs pre = [] ∧
      (n.mountVolume w name source dest).1.effects = pre ++ [.exec ("mount -t ceph " ++ rest)] ∧
      (n.mountVolume w name source dest).1.ret = w.sh ("mount -t ceph " ++ rest) ∧
      ¬ ((n.mountOptions (n.mountm.GetOptions name)).index "secretfile" ≠ "" ∧
         (n.mountOptions (n.mountm.GetOptions name)).index "secret" ≠ "")) := by
  by_cases hconf : (n.mountOptions (n.mountm.GetOptions name)).index "secretfile" ≠ "" ∧
      (n.mountOptions (n.mountm.GetOptions name)).index "secret" ≠ ""
  · left
    simp [cephDriver.mountVolume, hconf]
  · right
    have hm : ("mount" : String) ++ (" -t ceph" ++ " ") = "mount -t ceph " := by decide
    have hm2 : ("mount" : String) ++ " -t ceph " = "mount -t ceph " := by decide
    have key : ∃ rest pre, execs pre = [] ∧
        (n.mountVolume w name source dest).1.effects =
          pre ++ [.exec ("mount -t ceph " ++ rest)] ∧
        (n.mountVolume w name source dest).1.ret = w.sh ("mount -t ceph " ++ rest) := by
      unfold cephDriver.mountVolume
      simp only [hconf, if_false, run]
      cases w.debugLevel
      · simp only [Bool.false_eq_true, if_false, String.append_assoc]
        rw [← String.append_assoc "mount" " -t ceph " _, hm2]
        refine ⟨_, _, ?_, rfl, rfl⟩
        split <;> simp [execs, cephDriver.readSecretFile]
      · simp only [if_true, String.append_assoc]
        rw [← String.append_assoc " -t ceph" " " _, ← String.append_assoc "mount" _ _, hm]
        refine ⟨_, _, ?_, rfl, rfl⟩
        split <;> simp [execs, cephDriver.readSecretFile]
    obtain ⟨rest, pre, h1, h2, h3⟩ := key
    exact ⟨rest, pre, h1, h2, h3, hconf⟩

theorem not_active_cond (m : mountManager) (name : String)
    (h : m.IsActiveMount name = false) :
    (m.HasMount name && decide (m.Count name > 0)) = false := by
  unfold mountManager.IsActiveMount at h
  unfold mountManager.HasMount mountManager.Count
  cases hm : m.mounts name with
  | none => simp
  | some c => rw [hm] at h; simpa using h

theorem mountManager.Add_absent (m : mountManager) (name hostdir : String)
    (h : m.mounts name = none) :
    (m.Add name hostdir).mounts name =
      some { name := name, hostdir := hostdir, connections := 1, opts := [],
             managed := false } := by
  simp [mountManager.Add, h]

theorem mountManager.Add_present (m : mountManager) (name hostdir : String) (c : mount)
    (h : m.mounts name = some c) :
    (m.Add name hostdir).mounts name = some { c with connections := c.connections + 1 } := by
  simp [mountManager.Add, mountManager.Increment, h]

theorem mountManager.Add_other (m : mountManager) (name hostdir other : String)
    (ho : other ≠ name) : (m.Add name hostdir).mounts other = m.mounts other := by
  unfold mountManager.Add mountManager.Increment
  cases h : m.mounts name <;> simp [ho]

/-- `Mount` always adds one to the connection count of its name. -/
theorem Mount_Count (n : cephDriver) (w : World) (r : MountRequest) :
    (n.Mount w r).mountm.Count r.Name = n.mountm.Count r.Name + 1 := by
  by_cases hfast : (n.mountm.HasMount r.Name && decide (n.mountm.Count r.Name > 0)) = true
  · have : (n.Mount w r).mountm = (n.mountm.Increment r.Name).1 := by
      simp [cephDriver.Mount, hfast]
    rw [this]
    unfold mountManager.Increment mountManager.Count
    cases h : n.mountm.mounts r.Name with
    | none => simp [mountManager.HasMount, h] at hfast
    | some c => simp
  · have hcond : (n.mountm.HasMount r.Name && decide (n.mountm.Count r.Name > 0)) = false := by
      simpa using hfast
    have hreg : (n.Mount w r).mountm = n.mountm.Add r.Name (mountpoint w [n.root, r.Name]) := by
      unfold cephDriver.Mount
      simp only [hcond]
      cases (createDest w (mountpoint w [n.root, r.Name])).ret with
      | some err => simp
      | none =>
        simp only [Bool.false_eq_true, if_false]
        split <;> rfl
    rw [hreg]
    cases h : n.mountm.mounts r.Name with
    | none => simp [mountManager.Count, n.mountm.Add_absent _ _ h, h]
    | some c => simp [mountManager.Count, n.mountm.Add_present _ _ c h, h]

/-- `Unmount` takes one from the connection count of its name, stopping at zero. -/
theorem Unmount_Count (n : cephDriver) (w : World) (r : UnmountRequest)
    (h0 : 0 ≤ n.mountm.Count r.Name) :
    (n.Unmount w r).mountm.Count r.Name = max (n.mountm.Count r.Name - 1) 0 := by
  cases h : n.mountm.mounts r.Name with
  | none =>
    have hdel : (n.mountm.DeleteIfNotManaged r.Name).1 = n.mountm := by
      simp [mountManager.DeleteIfNotManaged, h]
    have hreg : (n.Unmount w r).mountm = n.mountm := by
      unfold cephDriver.Unmount run
      simp only [mountManager.HasMount, h, Option.isSome_none, Bool.false_and,
        Bool.false_eq_true, if_false, hdel]
      cases w.sh ("umount " ++ mountpoint w [n.root, r.Name]) with
      | some e => rfl
      | none => cases w.removeAll (mountpoint w [n.root, r.Name]) <;> rfl
    rw [hreg]
    simp [mountManager.Count, h]
  | some c =>
    have hc0 : 0 ≤ c.connections := by simpa [mountManager.Count, h] using h0
    by_cases hc : c.connections > 1
    · have hpos : c.connections > 0 := by omega
      have hreg : (n.Unmount w r).mountm = (n.mountm.Decrement r.Name).1 := by
        simp [cephDriver.Unmount, mountManager.HasMount, mountManager.Count, h, hc]
      rw [hreg]
      simp only [mountManager.Decrement, h, hpos, if_true, mountManager.Count,
        mountManager.store_same]
      omega
    · have hdec : ((n.mountm.Decrement r.Name).1).Count r.Name = 0 := by
        unfold mountManager.Decrement mountManager.Count
        rw [h]
        by_cases hpos : c.connections > 0
        · simp only [hpos, if_true, mountManager.store_same]; omega
        · simp only [hpos, if_false, h]; omega
      have hdel : (((n.mountm.Decrement r.Name).1).DeleteIfNotManaged r.Name).1.Count r.Name
          = 0 := by
        unfold mountManager.DeleteIfNotManaged
        cases hd : (n.mountm.Decrement r.Name).1.mounts r.Name with
        | none => simpa using hdec
        | some c2 =>
          simp only []
          split
          · unfold mountManager.Delete
            split
            · split
              · simp [mountManager.Count]
              · exact hdec
            · exact hdec
          · exact hdec
      have hmax : max (n.mountm.Count r.Name - 1) 0 = 0 := by
        simp only [mountManager.Count, h]; omega
      rw [hmax]
      unfold cephDriver.Unmount run
      simp only [mountManager.HasMount, mountManager.Count, h, Option.isSome_some,
        Bool.true_and, decide_eq_true_eq, hc, if_false, if_true]
      cases w.sh ("umount " ++ mountpoint w [n.root, r.Name]) with
      | some e => exact hdec
      | none =>
        cases w.removeAll (mountpoint w [n.root, r.Name]) <;> exact hdel

/-- Along any sequence of requests on one name the connection count follows the
number of unmatched Mount calls. -/
theorem serveAll_Count (name : String) (calls : List (World × Call)) :
    ∀ (n : cephDriver) (k : Nat), n.mountm.Count name = (k : Int) →
      (n.serveAll name calls).Count name =
        ((calls.map Prod.snd).foldl outstandingStep k : Nat) := by
  induction calls with
  | nil => intro n k hk; simpa [cephDriver.serveAll] using hk
  | cons wc rest ih =>
    intro n k hk
    obtain ⟨w, c⟩ := wc
    simp only [cephDriver.serveAll, List.map_cons, List.foldl_cons]
    apply ih
    cases c with
    | mount id =>
      have := Mount_Count n w ⟨name, id⟩
      simp only [cephDriver.serve, outstandingStep] at this ⊢
      rw [this, hk]
      push_cast
      rfl
    | unmount id =>
      have := Unmount_Count n w ⟨name, id⟩ (by simp only [hk]; exact Int.natCast_nonneg k)
      simp only [cephDriver.serve, outstandingStep] at this ⊢
      rw [this, hk]
      omega

/-- The external operations of `UnlinkKey("client.cephFS")`: the key is looked up and,
when found, unlinked. -/
theorem UnlinkKey_effects (n : cephDriver) (w : World) :
    (n.UnlinkKey w "client.cephFS").effects =
      .keyctlSearch "ceph" "client.cephFS" ::
        (match w.keyctlSearch "ceph" "client.cephFS" with
         | some key => [.keyctlUnlink key]
         | none => []) := by
  unfold cephDriver.UnlinkKey keyctl_search keyctl_unlink
  cases w.keyctlSearch "ceph" "client.cephFS" <;> simp [hasNul]

/-- The last consumer leaves and the host cooperates: response, external operations
and registry of `Unmount`. -/
theorem Unmount_one_success (n : cephDriver) (w : World) (r : UnmountRequest) (c : mount)
    (h : n.mountm.mounts r.Name = some c) (hc : c.connections = 1)
    (hsh : w.sh ("umount " ++ mountpoint w [n.root, r.Name]) = none)
    (hrm : w.removeAll (mountpoint w [n.root, r.Name]) = none) :
    (n.Unmount w r).resp = { Mountpoint := "", Err := "" } ∧
    (n.Unmount w r).effects =
      .exec ("umount " ++ mountpoint w [n.root, r.Name]) ::
        ((n.UnlinkKey w "client.cephFS").effects ++
          [.removeAll (mountpoint w [n.root, r.Name])]) ∧
    (n.Unmount w r).mountm.mounts r.Name =
      (if c.managed then some { c with connections := 0 } else none) ∧
    (∀ other, other ≠ r.Name →
      (n.Unmount w r).mountm.mounts other = n.mountm.mounts other) := by
  have hdec : (n.mountm.Decrement r.Name).1 = n.mountm.store r.Name { c with connections := 0 } := by
    simp [mountManager.Decrement, h, hc]
  have hun : n.Unmount w r =
      ⟨{}, ((n.mountm.store r.Name { c with connections := 0 }).DeleteIfNotManaged r.Name).1,
        .exec ("umount " ++ mountpoint w [n.root, r.Name]) ::
          ((n.UnlinkKey w "client.cephFS").effects ++
            [.removeAll (mountpoint w [n.root, r.Name])]), []⟩ := by
    simp [cephDriver.Unmount, mountManager.HasMount, mountManager.Count, h, hc, run, hsh, hrm,
      hdec]
  rw [hun]
  refine ⟨rfl, rfl, ?_, ?_⟩
  · cases hm : c.managed <;>
      simp [mountManager.DeleteIfNotManaged, mountManager.Delete, mountManager.HasMount,
        mountManager.IsActiveMount, mountManager.Count, hm]
  · intro other ho
    cases hm : c.managed <;>
      simp [mountManager.DeleteIfNotManaged, mountManager.Delete, mountManager.HasMount,
        mountManager.IsActiveMount, mountManager.Count, hm, ho]

/-- The slow path of `Mount` on a cooperating host: the name is registered with `Add`,
one shell command is run, a `mount -t ceph` line, and the host path is returned. -/
theorem Mount_slow_success (n : cephDriver) (w : World) (r : MountRequest)
    (hna : n.mountm.IsActiveMount r.Name = false)
    (hconf : ¬ ((n.mountOptions
        ((n.mountm.Add r.Name (mountpoint w [n.root, r.Name])).GetOptions r.Name)).index
          "secretfile" ≠ "" ∧
      (n.mountOptions
        ((n.mountm.Add r.Name (mountpoint w [n.root, r.Name])).GetOptions r.Name)).index
          "secret" ≠ ""))
    (hw : w.allSucceed) :
    (n.Mount w r).mountm = n.mountm.Add r.Name (mountpoint w [n.root, r.Name]) ∧
    (n.Mount w r).resp = { Mountpoint := mountpoint w [n.root, r.Name], Err := "" } ∧
    ∃ a, execs (n.Mount w r).effects = ["mount -t ceph " ++ a] := by
  obtain ⟨hcd, hsh, _⟩ := hw
  have hcond := not_active_cond n.mountm r.Name hna
  have hce := execs_createDest w (mountpoint w [n.root, r.Name])
  unfold cephDriver.Mount
  simp only [hcond, Bool.false_eq_true, if_false, hcd]
  rcases mountVolume_cases
      { n with mountm := n.mountm.Add r.Name (mountpoint w [n.root, r.Name]) } w r.Name
      (n.fixSource r.Name r.ID) (mountpoint w [n.root, r.Name]) with
    ⟨_, _, hs1, hs2⟩ | ⟨rest, pre, hpre, heff, hret, _⟩
  · exact absurd ⟨hs1, hs2⟩ hconf
  · rw [hsh] at hret
    rw [hret]
    refine ⟨rfl, rfl, rest, ?_⟩
    simp only [execs_append, hce, heff, hpre, execs, List.nil_append]

/-- A name without a record gets a fresh record without options from `Add`, so the
options `mountVolume` works with are the daemon-wide ones. -/
theorem mountOptions_fresh (n : cephDriver) (name hostdir key : String)
    (habs : n.mountm.mounts name = none) :
    (n.mountOptions ((n.mountm.Add name hostdir).GetOptions name)).index key =
      n.cephopts.index key := by
  have hget : (n.mountm.Add name hostdir).GetOptions name = [] := by
    simp [mountManager.GetOptions, mountManager.HasOptions, n.mountm.Add_absent name hostdir habs]
  rw [hget]
  unfold cephDriver.mountOptions EmptyMap
  by_cases hlen : n.cephopts.length = 0
  · have : n.cephopts = [] := List.length_eq_zero.mp hlen
    simp [this]
  · simp [hlen]

theorem mountManager.nonneg_empty : NewVolumeManager.nonneg := by
  intro name c h
  simp [NewVolumeManager] at h

theorem mountManager.nonneg_store (m : mountManager) (name : String) (c : mount)
    (hm : m.nonneg) (hc : 0 ≤ c.connections) : (m.store name c).nonneg := by
  intro k c2 h
  by_cases hk : k = name
  · subst hk
    rw [mountManager.store_same] at h
    cases h
    exact hc
  · rw [mountManager.store_other _ _ _ _ hk] at h
    exact hm k c2 h

theorem mountManager.nonneg_remove (m : mountManager) (name : String) (hm : m.nonneg) :
    (m.remove name).nonneg := by
  intro k c2 h
  by_cases hk : k = name
  · subst hk
    rw [mountManager.remove_same] at h
    cases h
  · rw [mountManager.remove_other _ _ _ hk] at h
    exact hm k c2 h

theorem mountManager.nonneg_Increment (m : mountManager) (name : String) (hm : m.nonneg) :
    (m.Increment name).1.nonneg := by
  unfold mountManager.Increment
  cases h : m.mounts name with
  | none => exact hm
  | some c =>
    have := hm name c h
    exact m.nonneg_store name _ hm (by simp only; omega)

theorem mountManager.nonneg_Decrement (m : mountManager) (name : String) (hm : m.nonneg) :
    (m.Decrement name).1.nonneg := by
  unfold mountManager.Decrement
  cases h : m.mounts name with
  | none => exact hm
  | some c =>
    by_cases hc : c.connections > 0
    · simp only [hc, if_true]
      exact m.nonneg_store name _ hm (by simp only; omega)
    · simp only [hc, if_false]
      exact hm

theorem mountManager.nonneg_Add (m : mountManager) (name hostdir : String) (hm : m.nonneg) :
    (m.Add name hostdir).nonneg := by
  unfold mountManager.Add
  cases h : m.mounts name with
  | none => exact m.nonneg_store name _ hm (by simp)
  | some c => exact m.nonneg_Increment name hm

theorem mountManager.nonneg_Create (m : mountManager) (name hostdir : String) (opts : Opts)
    (hm : m.nonneg) : (m.Create name hostdir opts).1.nonneg := by
  unfold mountManager.Create
  cases h : m.mounts name with
  | none => exact m.nonneg_store name _ hm (by simp)
  | some c =>
    by_cases hc : c.connections > 0
    · simp only [hc, if_true]
      exact m.nonneg_store name _ hm (hm name c h)
    · simp only [hc, if_false]
      exact m.nonneg_store name _ hm (by simp)

theorem mountManager.nonneg_Delete (m : mountManager) (name : String) (hm : m.nonneg) :
    (m.Delete name).1.nonneg := by
  unfold mountManager.Delete
  split
  · split
    · exact m.nonneg_remove name hm
    · exact hm
  · exact hm

theorem mountManager.nonneg_DeleteIfNotManaged (m : mountManager) (name : String)
    (hm : m.nonneg) : (m.DeleteIfNotManaged name).1.nonneg := by
  unfold mountManager.DeleteIfNotManaged
  split
  · split
    · exact m.nonneg_Delete name hm
    · exact hm
  · exact hm

/-- Without conflicting credentials `mountVolume` reads the secret file when one is
named, runs the formatted command line, returns its outcome, and at debug level
writes the line with the first `,<credential>` replaced by `,****` to the log. -/
theorem mountVolume_run (n : cephDriver) (w : World) (name source dest : String)
    (hconf : ¬ ((n.mountOptions (n.mountm.GetOptions name)).index "secretfile" ≠ "" ∧
      (n.mountOptions (n.mountm.GetOptions name)).index "secret" ≠ "")) :
    n.mountVolume w name source dest =
      (⟨w.sh (mountLine w.debugLevel
            (mountSrcDir (n.mountOptions (n.mountm.GetOptions name)) source) n.context
            (n.mountUser (n.mountOptions (n.mountm.GetOptions name)))
            (n.mountPasswd w (n.mountOptions (n.mountm.GetOptions name)))
            (mountExtra (n.mountOptions (n.mountm.GetOptions name))) dest),
        (if (n.mountOptions (n.mountm.GetOptions name)).index "secretfile" ≠ "" then
            [.readFile ((n.mountOptions (n.mountm.GetOptions name)).index "secretfile")]
          else []) ++
          [.exec (mountLine w.debugLevel
            (mountSrcDir (n.mountOptions (n.mountm.GetOptions name)) source) n.context
            (n.mountUser (n.mountOptions (n.mountm.GetOptions name)))
            (n.mountPasswd w (n.mountOptions (n.mountm.GetOptions name)))
            (mountExtra (n.mountOptions (n.mountm.GetOptions name))) dest)]⟩,
       if w.debugLevel then
         ["exec: " ++ Replace1 (mountLine w.debugLevel
            (mountSrcDir (n.mountOptions (n.mountm.GetOptions name)) source) n.context
            (n.mountUser (n.mountOptions (n.mountm.GetOptions name)))
            (n.mountPasswd w (n.mountOptions (n.mountm.GetOptions name)))
            (mountExtra (n.mountOptions (n.mountm.GetOptions name))) dest)
          ("," ++ n.mountPasswd w (n.mountOptions (n.mountm.GetOptions name))) ",****"
          ++ "\n"]
       else []) := by
  unfold cephDriver.mountVolume
  simp only []
  generalize n.mountOptions (n.mountm.GetOptions name) = options at hconf ⊢
  have hm : ∀ x : String, ("mount" : String) ++ (" -t ceph" ++ (" " ++ x)) = "mount -t ceph " ++ x := by
    intro x
    rw [← String.append_assoc, ← String.append_assoc]
    rfl
  have hm2 : ∀ x : String, ("mount" : String) ++ (" -t ceph " ++ x) = "mount -t ceph " ++ x := by
    intro x
    rw [← String.append_assoc]
    rfl
  have hp : (if options.index "secret" ≠ "" then "secret=" ++ options.index "secret"
      else (if options.index "secretfile" ≠ "" then
          (⟨"secret=" ++ (n.readSecretFile w (options.index "secretfile")).ret,
            (n.readSecretFile w (options.index "secretfile")).effects⟩ : Ran String)
        else ⟨n.password, []⟩).ret) = n.mountPasswd w options := by
    unfold cephDriver.mountPasswd cephDriver.readSecretFile
    by_cases hs : options.index "secret" ≠ "" <;>
      by_cases hf : options.index "secretfile" ≠ "" <;> simp [hs, hf]
  have he : (if options.index "secretfile" ≠ "" then
          (⟨"secret=" ++ (n.readSecretFile w (options.index "secretfile")).ret,
            (n.readSecretFile w (options.index "secretfile")).effects⟩ : Ran String)
        else ⟨n.password, []⟩).effects =
      (if options.index "secretfile" ≠ "" then [.readFile (options.index "secretfile")]
        else []) := by
    unfold cephDriver.readSecretFile
    by_cases hf : options.index "secretfile" ≠ "" <;> simp [hf]
  simp only [hconf, if_false, run, hp, he]
  unfold mountLine mountSrcDir cephDriver.mountUser mountExtra
  cases w.debugLevel
  · simp only [Bool.false_eq_true, if_false, String.append_assoc, hm2]
  · simp only [if_true, String.append_assoc, hm]

theorem splitChars_ne_nil (sep : Char) (l : List Char) : splitChars sep l ≠ [] := by
  cases l with
  | nil => simp [splitChars]
  | cons c cs =>
    unfold splitChars
    split
    · simp
    · split <;> simp

theorem splitChars_no_sep (sep : Char) (a : List Char) (h : sep ∉ a) :
    splitChars sep a = [a] := by
  induction a with
  | nil => rfl
  | cons x a ih =>
    have hx : x ≠ sep := fun e => h (by simp [e])
    have ha : sep ∉ a := fun m => h (List.mem_cons_of_mem _ m)
    simp [splitChars, hx, ih ha]

theorem splitChars_append_sep (sep : Char) (a b : List Char) (h : sep ∉ a) :
    splitChars sep (a ++ sep :: b) = a :: splitChars sep b := by
  induction a with
  | nil => simp [splitChars]
  | cons x a ih =>
    have hx : x ≠ sep := fun e => h (by simp [e])
    have ha : sep ∉ a := fun m => h (List.mem_cons_of_mem _ m)
    simp [splitChars, hx, ih ha]

theorem String.empty_append_left (s : String) : "" ++ s = s := by
  apply String.ext
  simp [String.data_append]

theorem Split_commaList (hosts : List String) (hne : hosts ≠ [])
    (hcomma : ∀ h ∈ hosts, ',' ∉ h.data) : Split (commaList hosts) ',' = hosts := by
  induction hosts with
  | nil => exact absurd rfl hne
  | cons h rest ih =>
    cases rest with
    | nil =>
      have := splitChars_no_sep ',' h.data (hcomma h (by simp))
      simp [Split, commaList, this]
    | cons h2 rest2 =>
      have hh : ',' ∉ h.data := hcomma h (by simp)
      have ih2 := ih (by simp) (fun x hx => hcomma x (List.mem_cons_of_mem _ hx))
      unfold Split at ih2 ⊢
      have hd : (commaList (h :: h2 :: rest2)).data =
          h.data ++ ',' :: (commaList (h2 :: rest2)).data := by
        simp [commaList, String.data_append]
      rw [hd, splitChars_append_sep ',' _ _ hh, List.map_cons, ih2]

theorem srcDirLoop_eq (cephPort : String) (hosts : List String) :
    ∀ acc, srcDirLoop cephPort acc hosts =
      acc ++ commaList (hosts.map (fun h => h ++ cephPort)) := by
  induction hosts with
  | nil =>
    intro acc
    apply String.ext
    simp [srcDirLoop, commaList, String.data_append]
  | cons h rest ih =>
    intro acc
    cases rest with
    | nil => simp [srcDirLoop, commaList]
    | cons h2 rest2 =>
      rw [srcDirLoop, ih]
      simp [commaList, String.append_assoc]

/-- The options `GetOptions` reports for a record are its stored options. -/
theorem mountManager.GetOptions_of_record (m : mountManager) (name : String) (c : mount)
    (h : m.mounts name = some c) : m.GetOptions name = c.opts := by
  unfold mountManager.GetOptions mountManager.HasOptions
  rw [h]
  cases ho : c.opts with
  | nil => simp [ho]
  | cons a l => simp [ho]

/-! ### Decimal numerals -/

theorem digitChar_facts (k : Nat) (hk : k < 10) :
    (Nat.digitChar k).toNat - 48 = k ∧ (Nat.digitChar k).isDigit = true ∧
      Nat.digitChar k ≠ ' ' := by
  interval_cases k <;> decide

theorem toDigitsCore_forall (P : Char → Prop) (hP : ∀ k, k < 10 → P (Nat.digitChar k)) :
    ∀ (fuel n : Nat) (ds : List Char), (∀ c ∈ ds, P c) →
      ∀ c ∈ Nat.toDigitsCore 10 fuel n ds, P c := by
  intro fuel
  induction fuel with
  | zero => intro n ds hds; simpa [Nat.toDigitsCore] using hds
  | succ fuel ih =>
    intro n ds hds
    have hd : P (Nat.digitChar (n % 10)) := hP _ (Nat.mod_lt _ (by decide))
    have hds2 : ∀ c ∈ Nat.digitChar (n % 10) :: ds, P c := by
      intro c hc
      rcases List.mem_cons.mp hc with h | h
      · rw [h]; exact hd
      · exact hds c h
    unfold Nat.toDigitsCore
    simp only []
    split
    · exact hds2
    · exact ih _ _ hds2

theorem toDigitsCore_ne_nil :
    ∀ (fuel n : Nat) (ds : List Char), (ds ≠ [] ∨ 0 < fuel) →
      Nat.toDigitsCore 10 fuel n ds ≠ [] := by
  intro fuel
  induction fuel with
  | zero =>
    intro n ds h
    rcases h with h | h
    · simpa [Nat.toDigitsCore] using h
    · exact absurd h (by decide)
  | succ fuel ih =>
    intro n ds _
    unfold Nat.toDigitsCore
    simp only []
    split
    · simp
    · exact ih _ _ (Or.inl (by simp))

theorem toDigitsCore_value :
    ∀ (fuel n : Nat) (ds : List Char), n < fuel →
      (Nat.toDigitsCore 10 fuel n ds).foldl (fun acc ch => acc * 10 + (ch.toNat - 48)) 0 =
        ds.foldl (fun acc ch => acc * 10 + (ch.toNat - 48)) n := by
  intro fuel
  induction fuel with
  | zero => intro n ds h; exact absurd h (Nat.not_lt_zero _)
  | succ fuel ih =>
    intro n ds h
    have hd := (digitChar_facts (n % 10) (Nat.mod_lt _ (by decide))).1
    unfold Nat.toDigitsCore
    simp only []
    split
    · rename_i h0
      have hn : n % 10 = n := by omega
      simp only [List.foldl_cons, hd, Nat.zero_mul, Nat.zero_add]
      rw [hn]
    · rename_i h0
      have hlt : n / 10 < fuel := by omega
      rw [ih _ _ hlt]
      simp only [List.foldl_cons, hd]
      have : n / 10 * 10 + n % 10 = n := by omega
      rw [this]

/-- `Atoi` reads the decimal numeral of a number within the range of `int` back as
that number. -/
theorem Atoi_toString (n : Nat) (hn : n < 2 ^ 63) : Atoi (toString n) = (n : Int) := by
  have hdata : (toString n).data = Nat.toDigits 10 n := rfl
  have hall : ∀ c ∈ Nat.toDigits 10 n, c.isDigit = true :=
    toDigitsCore_forall (fun c => c.isDigit = true)
      (fun k hk => (digitChar_facts k hk).2.1) _ _ _ (by simp)
  have hne : Nat.toDigits 10 n ≠ [] := toDigitsCore_ne_nil _ _ _ (Or.inr (Nat.succ_pos _))
  have hval : (Nat.toDigits 10 n).foldl (fun acc ch => acc * 10 + (ch.toNat - 48)) 0 = n := by
    have := toDigitsCore_value (n + 1) n [] (Nat.lt_succ_self _)
    simpa [Nat.toDigits] using this
  obtain ⟨c, cs, hcs⟩ := List.exists_cons_of_ne_nil hne
  have hc : c.isDigit = true := hall c (by rw [hcs]; simp)
  have hminus : c ≠ '-' := fun e => by rw [e] at hc; exact absurd hc (by decide)
  have hplus : c ≠ '+' := fun e => by rw [e] at hc; exact absurd hc (by decide)
  have hallb : (Nat.toDigits 10 n).all Char.isDigit = true := by
    rw [List.all_eq_true]; exact hall
  unfold Atoi
  simp only [hdata]
  rw [hcs] at hallb hval ⊢
  simp [hminus, hplus, hallb, hval]
  intro h2
  omega

theorem toString_no_space (n : Nat) : ' ' ∉ (toString n).data := by
  intro h
  have := toDigitsCore_forall (fun c => c ≠ ' ')
    (fun k hk => (digitChar_facts k hk).2.2) (n + 1) n [] (by simp) ' ' h
  exact this rfl

/-! ### Reconciliation -/

theorem Split_pair (name count : String) (hn : ' ' ∉ name.data) (hc : ' ' ∉ count.data) :
    Split (name ++ " " ++ count) ' ' = [name, count] := by
  unfold Split
  have hd : (name ++ " " ++ count).data = name.data ++ ' ' :: count.data := by
    simp [String.data_append]
  rw [hd, splitChars_append_sep ' ' _ _ hn, splitChars_no_sep ' ' _ hc]
  rfl

theorem mountManager.addRefs_other (w : World) (rootPath name other : String)
    (ho : other ≠ name) :
    ∀ (k : Nat) (m : mountManager),
      (m.addRefs w rootPath name k).mounts other = m.mounts other := by
  intro k
  induction k with
  | zero => intro m; rfl
  | succ k ih =>
    intro m
    rw [mountManager.addRefs, ih, m.Add_other _ _ _ ho]

theorem mountManager.addRefs_present (w : World) (rootPath name : String) :
    ∀ (k : Nat) (m : mountManager) (c : mount), m.mounts name = some c →
      (m.addRefs w rootPath name k).mounts name =
        some { c with connections := c.connections + k } := by
  intro k
  induction k with
  | zero => intro m c h; simpa [mountManager.addRefs] using h
  | succ k ih =>
    intro m c h
    rw [mountManager.addRefs, ih _ _ (m.Add_present _ _ c h)]
    simp only [Option.some.injEq, mount.mk.injEq, true_and, and_true]
    push_cast
    omega

theorem mountManager.addRefs_absent (w : World) (rootPath name : String) (k : Nat)
    (hk : 0 < k) (m : mountManager) (h : m.mounts name = none) :
    (m.addRefs w rootPath name k).mounts name =
      some { name := name, hostdir := mountpoint w [rootPath, name], connections := k,
             opts := [], managed := false } := by
  obtain ⟨j, rfl⟩ := Nat.exists_eq_succ_of_ne_zero (Nat.pos_iff_ne_zero.mp hk)
  rw [mountManager.addRefs, mountManager.addRefs_present w rootPath name j _ _
    (m.Add_absent _ _ h)]
  simp only [Option.some.injEq, mount.mk.injEq, true_and, and_true]
  push_cast
  omega

theorem mountManager.refsLine_entry (m : mountManager) (w : World) (rootPath name : String)
    (k : Nat) (hn : ' ' ∉ name.data) (hk : k < 2 ^ 63) :
    m.refsLine w rootPath (name ++ " " ++ toString k) = m.addRefs w rootPath name k := by
  unfold mountManager.refsLine
  rw [Split_pair name (toString k) hn (toString_no_space k)]
  simp only [Atoi_toString k hk, Int.toNat_ofNat]
  by_cases h0 : k = 0
  · subst h0
    simp [mountManager.addRefs]
  · have : (k : Int) > 0 := by omega
    simp [this]

/-- The scanner loop of `BuildReferences` over lines `name count` with distinct names,
started on a registry that knows none of the names. -/
theorem refsLines_spec (w : World) (rootPath : String) :
    ∀ (entries : List (String × Nat)) (m : mountManager),
      (entries.map Prod.fst).Nodup →
      (∀ e ∈ entries, ' ' ∉ e.1.data) → (∀ e ∈ entries, e.2 < 2 ^ 63) →
      (∀ e ∈ entries, m.mounts e.1 = none) →
      (∀ e ∈ entries,
        ((entries.map (fun e => e.1 ++ " " ++ toString e.2)).foldl
            (fun m line => m.refsLine w rootPath line) m).mounts e.1 =
          (m.addRefs w rootPath e.1 e.2).mounts e.1) ∧
      (∀ x, x ∉ entries.map Prod.fst →
        ((entries.map (fun e => e.1 ++ " " ++ toString e.2)).foldl
            (fun m line => m.refsLine w rootPath line) m).mounts x = m.mounts x) := by
  intro entries
  induction entries with
  | nil =>
    intro m _ _ _ _
    exact ⟨fun e he => absurd he (List.not_mem_nil _), fun x _ => rfl⟩
  | cons e rest ih =>
    intro m hnd hsp hrg habs
    rw [List.map_cons, List.nodup_cons] at hnd
    have hline := m.refsLine_entry w rootPath e.1 e.2 (hsp e (by simp)) (hrg e (by simp))
    have habs1 : ∀ e2 ∈ rest, (m.addRefs w rootPath e.1 e.2).mounts e2.1 = none := by
      intro e2 he2
      have hne : e2.1 ≠ e.1 := by
        intro heq
        exact hnd.1 (heq ▸ List.mem_map_of_mem Prod.fst he2)
      rw [mountManager.addRefs_other w rootPath e.1 e2.1 hne]
      exact habs e2 (List.mem_cons_of_mem _ he2)
    obtain ⟨ih1, ih2⟩ := ih (m.addRefs w rootPath e.1 e.2) hnd.2
      (fun e2 he2 => hsp e2 (List.mem_cons_of_mem _ he2))
      (fun e2 he2 => hrg e2 (List.mem_cons_of_mem _ he2)) habs1
    simp only [List.map_cons, List.foldl_cons, hline]
    refine ⟨?_, ?_⟩
    · intro e2 he2
      rcases List.mem_cons.mp he2 with h | h
      · subst h
        exact ih2 e2.1 hnd.1
      · have hne : e2.1 ≠ e.1 := by
          intro heq
          exact hnd.1 (heq ▸ List.mem_map_of_mem Prod.fst h)
        rw [ih1 e2 h]
        have hnone := habs1 e2 h
        have hnone0 := habs e2 (List.mem_cons_of_mem _ h)
        by_cases hk : 0 < e2.2
        · rw [mountManager.addRefs_absent w rootPath e2.1 e2.2 hk _ hnone,
            mountManager.addRefs_absent w rootPath e2.1 e2.2 hk _ hnone0]
        · have hz : e2.2 = 0 := by omega
          rw [hz]
          simp only [mountManager.addRefs]
          rw [hnone, hnone0]
    · intro x hx
      rw [List.mem_cons, not_or] at hx
      rw [ih2 x hx.2, mountManager.addRefs_other w rootPath e.1 x hx.1]

/-! ## Claims -/

/-- C9: `Add(name, hostdir)` on an absent name stores a fresh record with that host
path, one connection and `managed = false`; on a present name it raises the
connections by one and keeps host path, options and managed flag; every other name
keeps its record. -/
theorem Add_spec (m : mountManager) (name hostdir : String) :
    (m.mounts name = none →
      (m.Add name hostdir).mounts name =
        some { name := name, hostdir := hostdir, connections := 1, opts := [],
               managed := false }) ∧
    (∀ c, m.mounts name = some c →
      (m.Add name hostdir).mounts name = some { c with connections := c.connections + 1 }) ∧
    (∀ other, other ≠ name → (m.Add name hostdir).mounts other = m.mounts other) := by
  exact ⟨m.Add_absent name hostdir, fun c h => m.Add_present name hostdir c h,
    fun other ho => m.Add_other name hostdir other ho⟩

theorem Add_spec_witness :
    (NewVolumeManager.Add "vol" "/mnt/vol").mounts "vol" =
        some { name := "vol", hostdir := "/mnt/vol", connections := 1, opts := [],
               managed := false } ∧
    ((NewVolumeManager.Add "vol" "/mnt/vol").Add "vol" "/other").mounts "vol" =
        some { name := "vol", hostdir := "/mnt/vol", connections := 2, opts := [],
               managed := false } ∧
    ((NewVolumeManager.Add "vol" "/mnt/vol").Add "w" "/mnt/w").mounts "vol" =
        (NewVolumeManager.Add "vol" "/mnt/vol").mounts "vol" :=
  ⟨(Add_spec NewVolumeManager "vol" "/mnt/vol").1 rfl,
   (Add_spec (NewVolumeManager.Add "vol" "/mnt/vol") "vol" "/other").2.1 _ rfl,
   (Add_spec (NewVolumeManager.Add "vol" "/mnt/vol") "w" "/mnt/w").2.2 "vol" (by decide)⟩

/-- C10: `Create(name, hostdir, opts)` on a record with connections > 0 replaces the
options only and returns that record; on any other name (absent, or a record without
connections) it stores and returns a managed record with zero connections, the given
host path and the given options. -/
theorem Create_spec (m : mountManager) (name hostdir : String) (opts : Opts) :
    (∀ c, m.mounts name = some c → c.connections > 0 →
      (m.Create name hostdir opts).2 = { c with opts := opts } ∧
      (m.Create name hostdir opts).1.mounts name = some { c with opts := opts }) ∧
    (m.IsActiveMount name = false →
      (m.Create name hostdir opts).2 =
        { name := name, hostdir := hostdir, connections := 0, opts := opts,
          managed := true } ∧
      (m.Create name hostdir opts).1.mounts name =
        some { name := name, hostdir := hostdir, connections := 0, opts := opts,
               managed := true }) := by
  refine ⟨?_, ?_⟩
  · intro c h hc
    simp [mountManager.Create, h, hc]
  · intro h
    unfold mountManager.IsActiveMount at h
    unfold mountManager.Create
    cases hm : m.mounts name with
    | none => simp
    | some c =>
      rw [hm] at h
      have hc : ¬ c.connections > 0 := by simpa using h
      simp [hc]

theorem Create_spec_witness :
    ((NewVolumeManager.Add "vol" "/mnt/vol").Create "vol" "/x" [("share", "s")]).2 =
        { name := "vol", hostdir := "/mnt/vol", connections := 1, opts := [("share", "s")],
          managed := false } ∧
    (NewVolumeManager.Create "vol" "/x" [("share", "s")]).2 =
        { name := "vol", hostdir := "/x", connections := 0, opts := [("share", "s")],
          managed := true } :=
  ⟨((Create_spec (NewVolumeManager.Add "vol" "/mnt/vol") "vol" "/x" [("share", "s")]).1
      _ rfl (by decide)).1,
   ((Create_spec NewVolumeManager "vol" "/x" [("share", "s")]).2 rfl).1⟩

/-- C3: `Mount` of a name whose record has connections > 0 takes the fast path: the
record only gains one connection, the response carries `mountpoint(root, name)` and no
error, no external operation is performed, and every other record is unchanged. -/
theorem Mount_active (n : cephDriver) (w : World) (r : MountRequest) (c : mount)
    (h : n.mountm.mounts r.Name = some c) (hc : c.connections > 0) :
    (n.Mount w r).mountm.mounts r.Name = some { c with connections := c.connections + 1 } ∧
    (n.Mount w r).resp = { Mountpoint := mountpoint w [n.root, r.Name], Err := "" } ∧
    (n.Mount w r).effects = [] ∧
    (∀ other, other ≠ r.Name →
      (n.Mount w r).mountm.mounts other = n.mountm.mounts other) := by
  have hfast : n.Mount w r =
      ⟨{ Mountpoint := mountpoint w [n.root, r.Name] }, (n.mountm.Increment r.Name).1, [], []⟩ := by
    simp [cephDriver.Mount, mountManager.HasMount, mountManager.Count, h, hc]
  rw [hfast]
  refine ⟨?_, rfl, rfl, ?_⟩
  · simp [mountManager.Increment, h]
  · intro other ho
    simp [mountManager.Increment, h, ho]

theorem Mount_active_witness :
    ((({ freshDriver with mountm := NewVolumeManager.Add "vol" "/mnt/vol" } : cephDriver).Mount
        failingShell ⟨"vol", "2"⟩).mountm.mounts "vol" =
      some { name := "vol", hostdir := "/mnt/vol", connections := 2, opts := [],
             managed := false }) ∧
    (({ freshDriver with mountm := NewVolumeManager.Add "vol" "/mnt/vol" } : cephDriver).Mount
        failingShell ⟨"vol", "2"⟩).effects = [] :=
  have h := Mount_active { freshDriver with mountm := NewVolumeManager.Add "vol" "/mnt/vol" }
    failingShell ⟨"vol", "2"⟩
    { name := "vol", hostdir := "/mnt/vol", connections := 1, opts := [], managed := false }
    rfl (by decide)
  ⟨h.1, h.2.2.1⟩

/-- C6: `Unmount` of a name whose record has connections > 1 only drops one
connection: the response is a success, no external operation is performed (no unmount,
no key lookup or unlink, no directory removal), and the record stays with its name,
host path, options and managed flag. -/
theorem Unmount_shared (n : cephDriver) (w : World) (r : UnmountRequest) (c : mount)
    (h : n.mountm.mounts r.Name = some c) (hc : c.connections > 1) :
    (n.Unmount w r).mountm.mounts r.Name = some { c with connections := c.connections - 1 } ∧
    (n.Unmount w r).resp = { Mountpoint := "", Err := "" } ∧
    (n.Unmount w r).effects = [] ∧
    (∀ other, other ≠ r.Name →
      (n.Unmount w r).mountm.mounts other = n.mountm.mounts other) := by
  have hpos : c.connections > 0 := by omega
  have hfast : n.Unmount w r = ⟨{}, (n.mountm.Decrement r.Name).1, [], []⟩ := by
    simp [cephDriver.Unmount, mountManager.HasMount, mountManager.Count, h, hc]
  rw [hfast]
  refine ⟨?_, rfl, rfl, ?_⟩
  · simp [mountManager.Decrement, h, hpos]
  · intro other ho
    simp [mountManager.Decrement, h, hpos, ho]

theorem Unmount_shared_witness :
    ((({ freshDriver with
          mountm := (NewVolumeManager.Add "vol" "/mnt/vol").Add "vol" "/mnt/vol" } :
        cephDriver).Unmount failingShell ⟨"vol", "2"⟩).mountm.mounts "vol" =
      some { name := "vol", hostdir := "/mnt/vol", connections := 1, opts := [],
             managed := false }) ∧
    (({ freshDriver with
          mountm := (NewVolumeManager.Add "vol" "/mnt/vol").Add "vol" "/mnt/vol" } :
        cephDriver).Unmount failingShell ⟨"vol", "2"⟩).effects = [] :=
  have h := Unmount_shared
    { freshDriver with mountm := (NewVolumeManager.Add "vol" "/mnt/vol").Add "vol" "/mnt/vol" }
    failingShell ⟨"vol", "2"⟩
    { name := "vol", hostdir := "/mnt/vol", connections := 2, opts := [], managed := false }
    rfl (by decide)
  ⟨h.1, h.2.2.1⟩

/-- C2, as the code has it: `Unmount` of a name without a record leaves the registry
unchanged, but it does run `umount <hostdir>`, once and first; when that command fails
its error is the response, and when it succeeds the key cleanup and the directory
removal follow and the response reports the removal's outcome. -/
theorem Unmount_absent (n : cephDriver) (w : World) (r : UnmountRequest)
    (h : n.mountm.mounts r.Name = none) :
    (n.Unmount w r).mountm = n.mountm ∧
    execs (n.Unmount w r).effects = ["umount " ++ mountpoint w [n.root, r.Name]] ∧
    (n.Unmount w r).effects.head? =
      some (.exec ("umount " ++ mountpoint w [n.root, r.Name])) ∧
    (∀ e, w.sh ("umount " ++ mountpoint w [n.root, r.Name]) = some e →
      (n.Unmount w r).resp = { Err := e } ∧
      (n.Unmount w r).effects = [.exec ("umount " ++ mountpoint w [n.root, r.Name])]) ∧
    (w.sh ("umount " ++ mountpoint w [n.root, r.Name]) = none →
      (n.Unmount w r).resp =
        { Err := (w.removeAll (mountpoint w [n.root, r.Name])).getD "" } ∧
      (n.Unmount w r).effects =
        .exec ("umount " ++ mountpoint w [n.root, r.Name]) ::
          ((n.UnlinkKey w "client.cephFS").effects ++
            [.removeAll (mountpoint w [n.root, r.Name])])) := by
  have hdel : (n.mountm.DeleteIfNotManaged r.Name).1 = n.mountm := by
    simp [mountManager.DeleteIfNotManaged, h]
  have hkey := execs_UnlinkKey n w
  cases hsh : w.sh ("umount " ++ mountpoint w [n.root, r.Name]) with
  | some e =>
    simp [cephDriver.Unmount, mountManager.HasMount, h, run, hsh, execs]
  | none =>
    cases hrm : w.removeAll (mountpoint w [n.root, r.Name]) <;>
      simp [cephDriver.Unmount, mountManager.HasMount, h, run, hsh, hrm, hdel, execs,
        execs_append, hkey]

/-- C1, as the code has it: when the name is not active and the external mount
command of a `Mount` request fails, the response carries that error and the registry
afterwards is the registry after `Add(name, hostdir)`: the record registered for this
attempt stays (a fresh unmanaged record with one connection for an absent name, one
more connection on an existing record), nothing is rolled back, and no other record
changes. -/
theorem Mount_failure_keeps_record (n : cephDriver) (w : World) (r : MountRequest)
    (cmd e : String)
    (hna : n.mountm.IsActiveMount r.Name = false)
    (hexec : Effect.exec cmd ∈ (n.Mount w r).effects)
    (hfail : w.sh cmd = some e) :
    (n.Mount w r).resp = { Err := e } ∧
    (n.Mount w r).mountm = n.mountm.Add r.Name (mountpoint w [n.root, r.Name]) ∧
    (n.mountm.mounts r.Name = none →
      (n.Mount w r).mountm.mounts r.Name =
        some { name := r.Name, hostdir := mountpoint w [n.root, r.Name], connections := 1,
               opts := [], managed := false }) ∧
    (∀ c, n.mountm.mounts r.Name = some c →
      (n.Mount w r).mountm.mounts r.Name = some { c with connections := c.connections + 1 }) ∧
    (∀ other, other ≠ r.Name →
      (n.Mount w r).mountm.mounts other = n.mountm.mounts other) := by
  have hcond := not_active_cond n.mountm r.Name hna
  have hreg : (n.Mount w r).mountm = n.mountm.Add r.Name (mountpoint w [n.root, r.Name]) := by
    unfold cephDriver.Mount
    simp only [hcond]
    cases (createDest w (mountpoint w [n.root, r.Name])).ret with
    | some err => simp
    | none =>
      simp only [Bool.false_eq_true, if_false]
      split <;> rfl
  have hresp : (n.Mount w r).resp = { Err := e } := by
    have hcd := execs_createDest w (mountpoint w [n.root, r.Name])
    rw [mem_execs] at hexec
    unfold cephDriver.Mount at hexec ⊢
    simp only [hcond, Bool.false_eq_true, if_false] at hexec ⊢
    cases hc : (createDest w (mountpoint w [n.root, r.Name])).ret with
    | some err =>
      rw [hc] at hexec
      simp only [hcd] at hexec
      exact absurd hexec (List.not_mem_nil _)
    | none =>
      rw [hc] at hexec
      simp only at hexec ⊢
      rcases mountVolume_cases
          { n with mountm := n.mountm.Add r.Name (mountpoint w [n.root, r.Name]) } w r.Name
          (n.fixSource r.Name r.ID) (mountpoint w [n.root, r.Name]) with
        ⟨hret, heff, _, _⟩ | ⟨rest, pre, hpre, heff, hret, _⟩
      · rw [hret] at hexec
        simp only [execs_append, hcd, heff, execs, List.append_nil] at hexec
        exact absurd hexec (List.not_mem_nil _)
      · have hcmd : cmd = "mount -t ceph " ++ rest := by
          cases hsh : w.sh ("mount -t ceph " ++ rest) <;>
            rw [hret, hsh] at hexec <;>
            simpa [execs_append, hcd, heff, hpre, execs] using hexec
        rw [hret, ← hcmd, hfail]
  refine ⟨hresp, hreg, ?_, ?_, ?_⟩
  · intro h; rw [hreg]; exact n.mountm.Add_absent _ _ h
  · intro c h; rw [hreg]; exact n.mountm.Add_present _ _ c h
  · intro other ho; rw [hreg]; exact n.mountm.Add_other _ _ other ho

theorem Mount_failure_keeps_record_witness :
    (freshDriver.Mount failingShell ⟨"vol", "1"⟩).resp = { Err := "exit status 32" } ∧
    (freshDriver.Mount failingShell ⟨"vol", "1"⟩).mountm.mounts "vol" =
      some { name := "vol", hostdir := "/mnt/vol", connections := 1, opts := [],
             managed := false } :=
  have h := Mount_failure_keeps_record freshDriver failingShell ⟨"vol", "1"⟩
    "mount -t ceph vol:6789: -o \"rw,name=admin,secret=s3cr3t\"  /mnt/vol" "exit status 32"
    rfl (by decide) rfl
  ⟨h.1, h.2.2.1 rfl⟩

/-- C1 fails on the code: on a driver with an empty registry, a `Mount` of `vol` whose
mount command exits with a failure reports the error, yet the registry afterwards
holds `vol` with one connection, so it is not the registry before the call. -/
theorem Mount_failure_counterexample :
    freshDriver.mountm.mounts "vol" = none ∧
    (freshDriver.Mount failingShell ⟨"vol", "1"⟩).effects =
      [.lstat "/mnt/vol", .mkdirAll "/mnt/vol",
       .exec "mount -t ceph vol:6789: -o \"rw,name=admin,secret=s3cr3t\"  /mnt/vol"] ∧
    failingShell.sh "mount -t ceph vol:6789: -o \"rw,name=admin,secret=s3cr3t\"  /mnt/vol" =
      some "exit status 32" ∧
    (freshDriver.Mount failingShell ⟨"vol", "1"⟩).resp = { Err := "exit status 32" } ∧
    (freshDriver.Mount failingShell ⟨"vol", "1"⟩).mountm.mounts "vol" =
      some { name := "vol", hostdir := "/mnt/vol", connections := 1, opts := [],
             managed := false } ∧
    (freshDriver.Mount failingShell ⟨"vol", "1"⟩).mountm ≠ freshDriver.mountm := by
  refine ⟨rfl, by decide, rfl, by decide, by decide, ?_⟩
  intro h
  have h2 := congrArg (fun m => (m.mounts "vol").isSome) h
  revert h2
  decide

/-- C2 fails on the code: on a driver with an empty registry, `Unmount` of `vol` runs
`umount /mnt/vol`; when that command fails the response carries its error, and when it
succeeds the key lookup and the directory removal follow. -/
theorem Unmount_absent_counterexample :
    freshDriver.mountm.mounts "vol" = none ∧
    (freshDriver.Unmount failingShell ⟨"vol", "1"⟩).effects = [.exec "umount /mnt/vol"] ∧
    (freshDriver.Unmount failingShell ⟨"vol", "1"⟩).resp = { Err := "exit status 32" } ∧
    (freshDriver.Unmount calmWorld ⟨"vol", "1"⟩).effects =
      [.exec "umount /mnt/vol", .keyctlSearch "ceph" "client.cephFS",
       .removeAll "/mnt/vol"] := by
  refine ⟨rfl, by decide, by decide, by decide⟩

theorem Unmount_absent_witness :
    (freshDriver.Unmount failingShell ⟨"vol", "1"⟩).mountm = freshDriver.mountm ∧
    execs (freshDriver.Unmount failingShell ⟨"vol", "1"⟩).effects = ["umount /mnt/vol"] :=
  have h := Unmount_absent freshDriver failingShell ⟨"vol", "1"⟩ rfl
  ⟨h.1, h.2.1⟩

/-- C7: when the name has a record with exactly one connection and the external
unmount command fails, `Unmount` reports that error, the record stays in the registry
with zero connections (decremented, neither deleted nor put back to one), and the only
external operation is the unmount command: no key lookup or unlink, no directory
removal. -/
theorem Unmount_last_failure (n : cephDriver) (w : World) (r : UnmountRequest) (c : mount)
    (e : String)
    (h : n.mountm.mounts r.Name = some c) (hc : c.connections = 1)
    (hsh : w.sh ("umount " ++ mountpoint w [n.root, r.Name]) = some e) :
    (n.Unmount w r).resp = { Err := e } ∧
    (n.Unmount w r).mountm.mounts r.Name = some { c with connections := 0 } ∧
    (n.Unmount w r).effects = [.exec ("umount " ++ mountpoint w [n.root, r.Name])] ∧
    (∀ other, other ≠ r.Name →
      (n.Unmount w r).mountm.mounts other = n.mountm.mounts other) := by
  have hun : n.Unmount w r =
      ⟨{ Err := e }, (n.mountm.Decrement r.Name).1,
        [.exec ("umount " ++ mountpoint w [n.root, r.Name])], []⟩ := by
    simp [cephDriver.Unmount, mountManager.HasMount, mountManager.Count, h, hc, run, hsh]
  rw [hun]
  refine ⟨rfl, ?_, rfl, ?_⟩
  · simp [mountManager.Decrement, h, hc]
  · intro other ho
    simp [mountManager.Decrement, h, hc, ho]

theorem Unmount_last_failure_witness :
    (({ freshDriver with mountm := NewVolumeManager.Add "vol" "/mnt/vol" } :
        cephDriver).Unmount failingShell ⟨"vol", "1"⟩).resp = { Err := "exit status 32" } ∧
    (({ freshDriver with mountm := NewVolumeManager.Add "vol" "/mnt/vol" } :
        cephDriver).Unmount failingShell ⟨"vol", "1"⟩).mountm.mounts "vol" =
      some { name := "vol", hostdir := "/mnt/vol", connections := 0, opts := [],
             managed := false } :=
  have h := Unmount_last_failure
    { freshDriver with mountm := NewVolumeManager.Add "vol" "/mnt/vol" }
    failingShell ⟨"vol", "1"⟩
    { name := "vol", hostdir := "/mnt/vol", connections := 1, opts := [], managed := false }
    "exit status 32" rfl rfl rfl
  ⟨h.1, h.2.1⟩

/-- C4: starting from an empty registry, after every call of any sequence of Mount and
Unmount calls on one name, whatever the external commands answer, the connection count
of the name is not negative and is at most the number of Mount calls so far that no
later Unmount call has matched. -/
theorem connections_bounded (n : cephDriver) (name : String) (calls : List (World × Call))
    (k : Nat) :
    0 ≤ (cephDriver.serveAll { n with mountm := NewVolumeManager } name
          (calls.take k)).Count name ∧
    (cephDriver.serveAll { n with mountm := NewVolumeManager } name
          (calls.take k)).Count name ≤ (outstanding ((calls.take k).map Prod.snd) : Nat) := by
  have h := serveAll_Count name (calls.take k) { n with mountm := NewVolumeManager } 0
    (by simp [mountManager.Count, NewVolumeManager])
  unfold outstanding
  rw [h]
  exact ⟨Int.natCast_nonneg _, le_refl _⟩

/-- C5: when the name has a record with exactly one connection and both the external
unmount and the directory removal succeed, `Unmount` runs the unmount command exactly
once and first, then looks the credential key `client.cephFS` up and unlinks it when
found, then removes the directory; afterwards an unmanaged record is gone and a managed
record is still there with zero connections. -/
theorem Unmount_last_success (n : cephDriver) (w : World) (r : UnmountRequest) (c : mount)
    (h : n.mountm.mounts r.Name = some c) (hc : c.connections = 1)
    (hsh : w.sh ("umount " ++ mountpoint w [n.root, r.Name]) = none)
    (hrm : w.removeAll (mountpoint w [n.root, r.Name]) = none) :
    (n.Unmount w r).resp = { Mountpoint := "", Err := "" } ∧
    (n.Unmount w r).effects =
      [.exec ("umount " ++ mountpoint w [n.root, r.Name]),
       .keyctlSearch "ceph" "client.cephFS"] ++
        (match w.keyctlSearch "ceph" "client.cephFS" with
         | some key => [.keyctlUnlink key]
         | none => []) ++
        [.removeAll (mountpoint w [n.root, r.Name])] ∧
    execs (n.Unmount w r).effects = ["umount " ++ mountpoint w [n.root, r.Name]] ∧
    (c.managed = false → (n.Unmount w r).mountm.mounts r.Name = none) ∧
    (c.managed = true →
      (n.Unmount w r).mountm.mounts r.Name = some { c with connections := 0 }) ∧
    (∀ other, other ≠ r.Name →
      (n.Unmount w r).mountm.mounts other = n.mountm.mounts other) := by
  obtain ⟨h1, h2, h3, h4⟩ := Unmount_one_success n w r c h hc hsh hrm
  refine ⟨h1, ?_, ?_, ?_, ?_, h4⟩
  · rw [h2, UnlinkKey_effects]; simp
  · rw [h2]; simp [execs, execs_append, execs_UnlinkKey]
  · intro hm; rw [h3, hm]; simp
  · intro hm; rw [h3, hm]; simp

theorem Unmount_last_success_witness :
    (({ freshDriver with mountm := NewVolumeManager.Add "vol" "/mnt/vol" } :
        cephDriver).Unmount { calmWorld with keyctlSearch := fun _ _ => some 7 }
          ⟨"vol", "1"⟩).effects =
      [.exec "umount /mnt/vol", .keyctlSearch "ceph" "client.cephFS", .keyctlUnlink 7,
       .removeAll "/mnt/vol"] ∧
    (({ freshDriver with mountm := NewVolumeManager.Add "vol" "/mnt/vol" } :
        cephDriver).Unmount { calmWorld with keyctlSearch := fun _ _ => some 7 }
          ⟨"vol", "1"⟩).mountm.mounts "vol" = none ∧
    (({ freshDriver with mountm := (NewVolumeManager.Create "vol" "/mnt/vol" []).1.Add "vol" "" } :
        cephDriver).Unmount calmWorld ⟨"vol", "1"⟩).mountm.mounts "vol" =
      some { name := "vol", hostdir := "/mnt/vol", connections := 0, opts := [],
             managed := true } :=
  have h := Unmount_last_success
    { freshDriver with mountm := NewVolumeManager.Add "vol" "/mnt/vol" }
    { calmWorld with keyctlSearch := fun _ _ => some 7 } ⟨"vol", "1"⟩
    { name := "vol", hostdir := "/mnt/vol", connections := 1, opts := [], managed := false }
    rfl rfl rfl rfl
  have h2 := Unmount_last_success
    { freshDriver with mountm := (NewVolumeManager.Create "vol" "/mnt/vol" []).1.Add "vol" "" }
    calmWorld ⟨"vol", "1"⟩
    { name := "vol", hostdir := "/mnt/vol", connections := 1, opts := [], managed := true }
    rfl rfl rfl rfl
  ⟨h.2.1, h.2.2.2.1 rfl, h2.2.2.2.2.1 rfl⟩

/-- C8: starting from a registry without a record for the name, `Mount`, `Unmount`,
`Mount` on hosts where every external operation succeeds (and a daemon configuration
that does not carry both a secret and a secret file, as the mount command is only
built then) run exactly three shell commands, in this order: a `mount -t ceph` line,
`umount <hostdir>`, and a `mount -t ceph` line again; all three requests succeed and
the registry ends with an unmanaged record for the name with one connection. -/
theorem Mount_Unmount_Mount (n : cephDriver) (w1 w2 w3 : World) (name id1 id2 id3 : String)
    (habs : n.mountm.mounts name = none)
    (hcfg : ¬ (n.cephopts.index "secretfile" ≠ "" ∧ n.cephopts.index "secret" ≠ ""))
    (h1 : w1.allSucceed) (h2 : w2.allSucceed) (h3 : w3.allSucceed) :
    (∃ a b,
      execs ((n.Mount w1 ⟨name, id1⟩).effects ++
        (cephDriver.Unmount { n with mountm := (n.Mount w1 ⟨name, id1⟩).mountm } w2
          ⟨name, id2⟩).effects ++
        (cephDriver.Mount
          { n with mountm :=
              (cephDriver.Unmount { n with mountm := (n.Mount w1 ⟨name, id1⟩).mountm } w2
                ⟨name, id2⟩).mountm } w3 ⟨name, id3⟩).effects) =
        ["mount -t ceph " ++ a, "umount " ++ mountpoint w2 [n.root, name],
         "mount -t ceph " ++ b]) ∧
    (n.Mount w1 ⟨name, id1⟩).resp = { Mountpoint := mountpoint w1 [n.root, name], Err := "" } ∧
    (cephDriver.Unmount { n with mountm := (n.Mount w1 ⟨name, id1⟩).mountm } w2
      ⟨name, id2⟩).resp = { Mountpoint := "", Err := "" } ∧
    (cephDriver.Mount
      { n with mountm :=
          (cephDriver.Unmount { n with mountm := (n.Mount w1 ⟨name, id1⟩).mountm } w2
            ⟨name, id2⟩).mountm } w3 ⟨name, id3⟩).resp =
      { Mountpoint := mountpoint w3 [n.root, name], Err := "" } ∧
    (cephDriver.Mount
      { n with mountm :=
          (cephDriver.Unmount { n with mountm := (n.Mount w1 ⟨name, id1⟩).mountm } w2
            ⟨name, id2⟩).mountm } w3 ⟨name, id3⟩).mountm.mounts name =
      some { name := name, hostdir := mountpoint w3 [n.root, name], connections := 1,
             opts := [], managed := false } := by
  -- first Mount
  have hna1 : n.mountm.IsActiveMount name = false := by
    simp [mountManager.IsActiveMount, habs]
  have hconf1 : ¬ ((n.mountOptions
        ((n.mountm.Add name (mountpoint w1 [n.root, name])).GetOptions name)).index
          "secretfile" ≠ "" ∧
      (n.mountOptions
        ((n.mountm.Add name (mountpoint w1 [n.root, name])).GetOptions name)).index
          "secret" ≠ "") := by
    rw [mountOptions_fresh n name _ "secretfile" habs, mountOptions_fresh n name _ "secret" habs]
    exact hcfg
  obtain ⟨hreg1, hresp1, a, hex1⟩ := Mount_slow_success n w1 ⟨name, id1⟩ hna1 hconf1 h1
  -- Unmount
  have hrec1 : (n.Mount w1 ⟨name, id1⟩).mountm.mounts name =
      some { name := name, hostdir := mountpoint w1 [n.root, name], connections := 1,
             opts := [], managed := false } := by
    rw [hreg1]; exact n.mountm.Add_absent _ _ habs
  obtain ⟨hresp2, heff2, hrec2, _⟩ :=
    Unmount_one_success { n with mountm := (n.Mount w1 ⟨name, id1⟩).mountm } w2 ⟨name, id2⟩ _
      hrec1 rfl (h2.2.1 _) (h2.2.2 _)
  have hex2 : execs (cephDriver.Unmount { n with mountm := (n.Mount w1 ⟨name, id1⟩).mountm } w2
      ⟨name, id2⟩).effects = ["umount " ++ mountpoint w2 [n.root, name]] := by
    rw [heff2]
    simp only [execs, execs_append, execs_UnlinkKey, List.nil_append]
  have habs2 : (cephDriver.Unmount { n with mountm := (n.Mount w1 ⟨name, id1⟩).mountm } w2
      ⟨name, id2⟩).mountm.mounts name = none := by
    rw [hrec2]; rfl
  -- second Mount
  obtain ⟨hreg3, hresp3, b, hex3⟩ := Mount_slow_success
    { n with mountm :=
        (cephDriver.Unmount { n with mountm := (n.Mount w1 ⟨name, id1⟩).mountm } w2
          ⟨name, id2⟩).mountm } w3 ⟨name, id3⟩
    (by simp [mountManager.IsActiveMount, habs2])
    (by
      rw [mountOptions_fresh _ name _ "secretfile" habs2,
        mountOptions_fresh _ name _ "secret" habs2]
      exact hcfg) h3
  refine ⟨⟨a, b, ?_⟩, hresp1, hresp2, hresp3, ?_⟩
  · rw [execs_append, execs_append, hex1, hex2, hex3]
    rfl
  · rw [hreg3]
    exact mountManager.Add_absent _ _ _ habs2

theorem Mount_Unmount_Mount_witness :
    freshDriver.mountm.mounts "vol" = none ∧ calmWorld.allSucceed ∧
    (cephDriver.Mount
      { freshDriver with mountm :=
          (cephDriver.Unmount
            { freshDriver with mountm := (freshDriver.Mount calmWorld ⟨"vol", "1"⟩).mountm }
            calmWorld ⟨"vol", "2"⟩).mountm } calmWorld ⟨"vol", "3"⟩).mountm.mounts "vol" =
      some { name := "vol", hostdir := "/mnt/vol", connections := 1, opts := [],
             managed := false } :=
  have hw : calmWorld.allSucceed := ⟨fun _ => rfl, fun _ => rfl, fun _ => rfl⟩
  ⟨rfl, hw,
   (Mount_Unmount_Mount freshDriver calmWorld calmWorld calmWorld "vol" "1" "2" "3" rfl
      (by decide) hw hw hw).2.2.2.2⟩

/-- C11: `Delete(name)` returns an error exactly when the name has a record with
connections >= 1, and then the registry is unchanged; otherwise it returns no error
and the name has no record afterwards, managed or not; no other name is touched.  In
particular `Create` on an absent name followed by `Delete` succeeds and leaves no
record. -/
theorem Delete_spec (m : mountManager) (name : String) :
    ((m.Delete name).2 ≠ none ↔ ∃ c, m.mounts name = some c ∧ c.connections ≥ 1) ∧
    ((m.Delete name).2 ≠ none → (m.Delete name).1 = m) ∧
    ((m.Delete name).2 = none → (m.Delete name).1.HasMount name = false) ∧
    (∀ other, other ≠ name → (m.Delete name).1.mounts other = m.mounts other) ∧
    (∀ hostdir opts, m.mounts name = none →
      ((m.Create name hostdir opts).1.Delete name).2 = none ∧
      ((m.Create name hostdir opts).1.Delete name).1.mounts name = none) := by
  refine ⟨?_, ?_, ?_, ?_, ?_⟩
  · unfold mountManager.Delete mountManager.HasMount mountManager.Count
    cases h : m.mounts name with
    | none => simp
    | some c =>
      by_cases hc : c.connections < 1
      · simp only [Option.isSome_some, if_true, hc, ne_eq, not_true_eq_false, Option.some.injEq,
          exists_eq_left', false_iff]
        omega
      · simp only [Option.isSome_some, if_true, hc, if_false, ne_eq, not_false_eq_true,
          Option.some.injEq, exists_eq_left', true_iff, reduceCtorEq]
        omega
  · unfold mountManager.Delete mountManager.HasMount mountManager.Count
    cases h : m.mounts name with
    | none => simp
    | some c =>
      by_cases hc : c.connections < 1 <;> simp [hc]
  · unfold mountManager.Delete mountManager.HasMount mountManager.Count
    cases h : m.mounts name with
    | none => simp [h]
    | some c =>
      by_cases hc : c.connections < 1 <;> simp [hc]
  · intro other ho
    unfold mountManager.Delete mountManager.HasMount mountManager.Count
    cases h : m.mounts name with
    | none => simp
    | some c =>
      by_cases hc : c.connections < 1 <;> simp [hc, ho]
  · intro hostdir opts h
    simp [mountManager.Create, h, mountManager.Delete, mountManager.HasMount,
      mountManager.Count]

theorem Delete_spec_witness :
    ((NewVolumeManager.Add "vol" "/mnt/vol").Delete "vol").1 =
        NewVolumeManager.Add "vol" "/mnt/vol" ∧
    ((NewVolumeManager.Create "vol" "/mnt/vol" []).1.Delete "vol").1.HasMount "vol" = false ∧
    ((NewVolumeManager.Create "vol" "/mnt/vol" [("share", "s")]).1.Delete "vol").2 = none :=
  ⟨(Delete_spec (NewVolumeManager.Add "vol" "/mnt/vol") "vol").2.1 (by decide),
   (Delete_spec (NewVolumeManager.Create "vol" "/mnt/vol" []).1 "vol").2.2.1 rfl,
   ((Delete_spec NewVolumeManager "vol").2.2.2.2 "/mnt/vol" [("share", "s")] rfl).1⟩

/-- C12: on a registry whose counts are not negative, `DeleteIfNotManaged(name)`
removes the record of the name exactly when it exists, has connections == 0 and is not
managed; in every other case the registry is unchanged; no other name is touched and
the returned error is always nil. -/
theorem DeleteIfNotManaged_spec (m : mountManager) (name : String) (hm : m.nonneg) :
    (∀ c, m.mounts name = some c → c.connections = 0 → c.managed = false →
      (m.DeleteIfNotManaged name).1.mounts name = none) ∧
    ((m.DeleteIfNotManaged name).1.mounts name ≠ m.mounts name →
      ∃ c, m.mounts name = some c ∧ c.connections = 0 ∧ c.managed = false) ∧
    ((¬ ∃ c, m.mounts name = some c ∧ c.connections = 0 ∧ c.managed = false) →
      (m.DeleteIfNotManaged name).1 = m) ∧
    (∀ other, other ≠ name →
      (m.DeleteIfNotManaged name).1.mounts other = m.mounts other) ∧
    (m.DeleteIfNotManaged name).2 = none := by
  cases h : m.mounts name with
  | none =>
    have hd : m.DeleteIfNotManaged name = (m, none) := by
      simp [mountManager.DeleteIfNotManaged, h]
    simp [hd, h]
  | some c =>
    have h0 : 0 ≤ c.connections := hm name c h
    by_cases hrem : c.connections = 0 ∧ c.managed = false
    · have hd : m.DeleteIfNotManaged name = (m.remove name, none) := by
        simp [mountManager.DeleteIfNotManaged, mountManager.Delete, mountManager.HasMount,
          mountManager.IsActiveMount, mountManager.Count, h, hrem.1, hrem.2]
      rw [hd]
      refine ⟨fun _ _ _ _ => by simp, fun _ => ⟨c, rfl, hrem.1, hrem.2⟩, ?_, ?_, rfl⟩
      · intro hne
        exact absurd ⟨c, rfl, hrem.1, hrem.2⟩ hne
      · intro other ho
        simp [ho]
    · have hd : m.DeleteIfNotManaged name = (m, none) := by
        unfold mountManager.DeleteIfNotManaged
        simp only [h, mountManager.HasMount, mountManager.IsActiveMount, Option.isSome_some,
          Bool.true_and]
        by_cases hc : c.connections > 0
        · simp [hc]
        · have hc0 : c.connections = 0 := by omega
          have hmg : c.managed = true := by
            cases hb : c.managed
            · exact absurd ⟨hc0, hb⟩ hrem
            · rfl
          simp [hc, hmg]
      rw [hd]
      refine ⟨?_, ?_, fun _ => rfl, fun _ _ => rfl, rfl⟩
      · intro c2 hc2 h1 h2
        cases hc2
        exact absurd ⟨h1, h2⟩ hrem
      · intro hne
        exact absurd h hne

theorem DeleteIfNotManaged_spec_witness :
    ((NewVolumeManager.Add "vol" "/mnt/vol").Decrement "vol").1.nonneg ∧
    ((((NewVolumeManager.Add "vol" "/mnt/vol").Decrement "vol").1).DeleteIfNotManaged
        "vol").1.mounts "vol" = none ∧
    ((NewVolumeManager.Create "vol" "/mnt/vol" []).1.DeleteIfNotManaged "vol").1 =
      (NewVolumeManager.Create "vol" "/mnt/vol" []).1 :=
  have h1 : ((NewVolumeManager.Add "vol" "/mnt/vol").Decrement "vol").1.nonneg :=
    mountManager.nonneg_Decrement _ _
      (mountManager.nonneg_Add _ _ _ mountManager.nonneg_empty)
  have h2 : (NewVolumeManager.Create "vol" "/mnt/vol" []).1.nonneg :=
    mountManager.nonneg_Create _ _ _ _ mountManager.nonneg_empty
  ⟨h1,
   (DeleteIfNotManaged_spec _ "vol" h1).1
      { name := "vol", hostdir := "/mnt/vol", connections := 0, opts := [], managed := false }
      rfl rfl rfl,
   (DeleteIfNotManaged_spec _ "vol" h2).2.2.1 (by
      rintro ⟨c, hc, _, hmg⟩
      have : c = { name := "vol", hostdir := "/mnt/vol", connections := 0, opts := [],
                   managed := true } := (Option.some.inj hc).symm
      rw [this] at hmg
      exact absurd hmg (by decide))⟩

/-- C13: the empty registry has no negative connection count, and `Add`, `Create`,
`Increment`, `Decrement`, `Delete` and `DeleteIfNotManaged` keep every count at or
above zero; `Decrement` on a record with connections == 0 or on an absent name leaves
the registry as it is, and on a record with connections > 0 lowers that count by
exactly one and touches nothing else. -/
theorem connections_nonneg_invariant :
    NewVolumeManager.nonneg ∧
    (∀ m : mountManager, m.nonneg →
      (∀ name hostdir, (m.Add name hostdir).nonneg) ∧
      (∀ name hostdir opts, (m.Create name hostdir opts).1.nonneg) ∧
      (∀ name, (m.Increment name).1.nonneg) ∧
      (∀ name, (m.Decrement name).1.nonneg) ∧
      (∀ name, (m.Delete name).1.nonneg) ∧
      (∀ name, (m.DeleteIfNotManaged name).1.nonneg)) ∧
    (∀ (m : mountManager) name, m.mounts name = none → (m.Decrement name).1 = m) ∧
    (∀ (m : mountManager) name c, m.mounts name = some c → c.connections = 0 →
      (m.Decrement name).1 = m) ∧
    (∀ (m : mountManager) name c, m.mounts name = some c → c.connections > 0 →
      (m.Decrement name).1.mounts name = some { c with connections := c.connections - 1 } ∧
      ∀ other, other ≠ name → (m.Decrement name).1.mounts other = m.mounts other) := by
  refine ⟨mountManager.nonneg_empty, ?_, ?_, ?_, ?_⟩
  · intro m hm
    exact ⟨fun name hostdir => m.nonneg_Add name hostdir hm,
      fun name hostdir opts => m.nonneg_Create name hostdir opts hm,
      fun name => m.nonneg_Increment name hm, fun name => m.nonneg_Decrement name hm,
      fun name => m.nonneg_Delete name hm, fun name => m.nonneg_DeleteIfNotManaged name hm⟩
  · intro m name h
    simp [mountManager.Decrement, h]
  · intro m name c h hc
    simp [mountManager.Decrement, h, hc]
  · intro m name c h hc
    refine ⟨by simp [mountManager.Decrement, h, hc], ?_⟩
    intro other ho
    simp [mountManager.Decrement, h, hc, ho]

theorem connections_nonneg_invariant_witness :
    (NewVolumeManager.Add "vol" "/mnt/vol").nonneg ∧
    ((NewVolumeManager.Add "vol" "/mnt/vol").Decrement "vol").1.mounts "vol" =
      some { name := "vol", hostdir := "/mnt/vol", connections := 0, opts := [],
             managed := false } ∧
    (NewVolumeManager.Decrement "vol").1 = NewVolumeManager :=
  ⟨(connections_nonneg_invariant.2.1 NewVolumeManager connections_nonneg_invariant.1).1
      "vol" "/mnt/vol",
   (connections_nonneg_invariant.2.2.2.2 (NewVolumeManager.Add "vol" "/mnt/vol") "vol"
      { name := "vol", hostdir := "/mnt/vol", connections := 1, opts := [], managed := false }
      rfl (by decide)).1,
   connections_nonneg_invariant.2.2.1 NewVolumeManager "vol" rfl⟩

/-- C14: when the effective options of a volume hold both a non-empty `secret` and a
non-empty `secretfile`, `mountVolume` returns the conflicting-credentials error and
performs no external operation at all: no process is run and the secret file is not
read; nothing is logged either. -/
theorem mountVolume_conflict (n : cephDriver) (w : World) (name source dest : String)
    (hs : (n.mountOptions (n.mountm.GetOptions name)).index "secret" ≠ "")
    (hf : (n.mountOptions (n.mountm.GetOptions name)).index "secretfile" ≠ "") :
    (n.mountVolume w name source dest).1.ret =
      some "Cannot pass secret and secretfile options together" ∧
    (n.mountVolume w name source dest).1.effects = [] ∧
    (n.mountVolume w name source dest).2 = [] := by
  have hconf : (n.mountOptions (n.mountm.GetOptions name)).index "secretfile" ≠ "" ∧
      (n.mountOptions (n.mountm.GetOptions name)).index "secret" ≠ "" := ⟨hf, hs⟩
  unfold cephDriver.mountVolume
  simp only []
  rw [if_pos hconf]
  exact ⟨rfl, rfl, rfl⟩

theorem mountVolume_conflict_witness :
    ((createdDriver [("secret", "abc"), ("secretfile", "/path")]).mountVolume calmWorld "vol"
        "vol:6789:" "/mnt/vol").1.ret =
      some "Cannot pass secret and secretfile options together" ∧
    ((createdDriver [("secret", "abc"), ("secretfile", "/path")]).mountVolume calmWorld "vol"
        "vol:6789:" "/mnt/vol").1.effects = [] :=
  have h := mountVolume_conflict (createdDriver [("secret", "abc"), ("secretfile", "/path")])
    calmWorld "vol" "vol:6789:" "/mnt/vol" (by decide) (by decide)
  ⟨h.1, h.2.1⟩

/-- C16, as the code has it: when `secret` and `secretfile` are not both supplied, the
command line `mountVolume` runs carries as credential `secret=` followed by the
literal `secret` option if that is supplied; otherwise `secret=` followed by the text
of the file named by `secretfile`, exactly as read, if that is supplied; otherwise the
daemon default password. -/
theorem mountVolume_credential (n : cephDriver) (w : World) (name source dest : String)
    (hconf : ¬ ((n.mountOptions (n.mountm.GetOptions name)).index "secretfile" ≠ "" ∧
      (n.mountOptions (n.mountm.GetOptions name)).index "secret" ≠ "")) :
    execs (n.mountVolume w name source dest).1.effects =
      [mountLine w.debugLevel
        (mountSrcDir (n.mountOptions (n.mountm.GetOptions name)) source) n.context
        (n.mountUser (n.mountOptions (n.mountm.GetOptions name)))
        (if (n.mountOptions (n.mountm.GetOptions name)).index "secret" ≠ "" then
          "secret=" ++ (n.mountOptions (n.mountm.GetOptions name)).index "secret"
        else if (n.mountOptions (n.mountm.GetOptions name)).index "secretfile" ≠ "" then
          "secret=" ++ w.readFile ((n.mountOptions (n.mountm.GetOptions name)).index "secretfile")
        else n.password)
        (mountExtra (n.mountOptions (n.mountm.GetOptions name))) dest] := by
  rw [mountVolume_run n w name source dest hconf]
  have hread : execs
      (if (n.mountOptions (n.mountm.GetOptions name)).index "secretfile" ≠ "" then
        [Effect.readFile ((n.mountOptions (n.mountm.GetOptions name)).index "secretfile")]
      else []) = [] := by
    split <;> rfl
  simp only [execs_append, hread, List.nil_append]
  rfl

theorem mountVolume_credential_witness :
    execs ((createdDriver [("secretfile", "/etc/ceph/key")]).mountVolume secretFileWorld "vol"
        "vol:6789:" "/mnt/vol").1.effects =
      ["mount -t ceph vol:6789: -o \"rw,name=admin,secret=abc\n\"  /mnt/vol"] :=
  mountVolume_credential (createdDriver [("secretfile", "/etc/ceph/key")]) secretFileWorld
    "vol" "vol:6789:" "/mnt/vol" (by decide)

/-- C16 fails on the code: with `secretfile` naming a file that holds `abc` and a
newline, the credential in the command line is `secret=abc` with the newline still
attached; nothing is trimmed. -/
theorem mountVolume_credential_counterexample :
    (createdDriver [("secretfile", "/etc/ceph/key")]).mountm.GetOptions "vol" =
      [("secretfile", "/etc/ceph/key")] ∧
    secretFileWorld.readFile "/etc/ceph/key" = "abc\n" ∧
    ((createdDriver [("secretfile", "/etc/ceph/key")]).mountVolume secretFileWorld "vol"
        "vol:6789:" "/mnt/vol").1.effects =
      [.readFile "/etc/ceph/key",
       .exec "mount -t ceph vol:6789: -o \"rw,name=admin,secret=abc\n\"  /mnt/vol"] ∧
    ((createdDriver [("secretfile", "/etc/ceph/key")]).mountVolume secretFileWorld "vol"
        "vol:6789:" "/mnt/vol").1.effects ≠
      [.readFile "/etc/ceph/key",
       .exec "mount -t ceph vol:6789: -o \"rw,name=admin,secret=abc\"  /mnt/vol"] := by
  refine ⟨by decide, rfl, by decide, by decide⟩

/-- C15: when the effective `addr` option is a non-empty comma-separated list of hosts
`h1,...,hk`, the source in the command line `mountVolume` runs is
`h1:P,h2:P,...,hk:P` followed by the `device` option, where `P` is the `port` option
when that is non-empty and `6789` otherwise. -/
theorem mountVolume_source (n : cephDriver) (w : World) (name source dest : String)
    (hosts : List String) (hne : hosts ≠ []) (hcomma : ∀ h ∈ hosts, ',' ∉ h.data)
    (haddr : (n.mountOptions (n.mountm.GetOptions name)).index "addr" = commaList hosts)
    (hfull : (n.mountOptions (n.mountm.GetOptions name)).index "addr" ≠ "")
    (hconf : ¬ ((n.mountOptions (n.mountm.GetOptions name)).index "secretfile" ≠ "" ∧
      (n.mountOptions (n.mountm.GetOptions name)).index "secret" ≠ "")) :
    execs (n.mountVolume w name source dest).1.effects =
      [mountLine w.debugLevel
        (commaList (hosts.map (fun h => h ++ ":" ++
            (if (n.mountOptions (n.mountm.GetOptions name)).index "port" ≠ "" then
              (n.mountOptions (n.mountm.GetOptions name)).index "port"
            else "6789")))
          ++ (n.mountOptions (n.mountm.GetOptions name)).index "device")
        n.context
        (n.mountUser (n.mountOptions (n.mountm.GetOptions name)))
        (n.mountPasswd w (n.mountOptions (n.mountm.GetOptions name)))
        (mountExtra (n.mountOptions (n.mountm.GetOptions name))) dest] := by
  rw [mountVolume_run n w name source dest hconf]
  have hread : execs
      (if (n.mountOptions (n.mountm.GetOptions name)).index "secretfile" ≠ "" then
        [Effect.readFile ((n.mountOptions (n.mountm.GetOptions name)).index "secretfile")]
      else []) = [] := by
    split <;> rfl
  have hsrc : mountSrcDir (n.mountOptions (n.mountm.GetOptions name)) source =
      commaList (hosts.map (fun h => h ++ ":" ++
            (if (n.mountOptions (n.mountm.GetOptions name)).index "port" ≠ "" then
              (n.mountOptions (n.mountm.GetOptions name)).index "port"
            else "6789")))
          ++ (n.mountOptions (n.mountm.GetOptions name)).index "device" := by
    unfold mountSrcDir
    rw [if_pos hfull, haddr, Split_commaList hosts hne hcomma, srcDirLoop_eq,
      String.empty_append_left]
    by_cases hp : (n.mountOptions (n.mountm.GetOptions name)).index "port" ≠ ""
    · rw [if_pos hp, if_pos hp]
      simp only [String.append_assoc]
    · rw [if_neg hp, if_neg hp]
      simp only [String.append_assoc]
      rfl
  simp only [execs_append, hread, List.nil_append, hsrc]
  rfl

theorem mountVolume_source_witness :
    execs ((createdDriver [("addr", "10.0.0.1,10.0.0.2"), ("device", "/data")]).mountVolume
        calmWorld "vol" "vol:6789:" "/mnt/vol").1.effects =
      ["mount -t ceph 10.0.0.1:6789,10.0.0.2:6789/data -o \"rw,name=admin,secret=s3cr3t\"  /mnt/vol"] :=
  mountVolume_source (createdDriver [("addr", "10.0.0.1,10.0.0.2"), ("device", "/data")])
    calmWorld "vol" "vol:6789:" "/mnt/vol" ["10.0.0.1", "10.0.0.2"] (by decide) (by decide)
    (by decide) (by decide) (by decide)

/-- C18: `GetOption(name, key)` is the stored value when the record exists and its
option map holds the key, and the empty string otherwise; `HasOption(name, key)` is
true exactly when the record exists and its option map holds the key;
`GetOptionAsBool(name, key)` is true exactly when the record and the key exist and the
stored value equals `yes` or `true` up to letter case. -/
theorem option_accessors (m : mountManager) (name key : String) :
    (∀ c v, m.mounts name = some c → c.opts.lookup key = some v →
      m.GetOption name key = v) ∧
    ((¬ ∃ c v, m.mounts name = some c ∧ c.opts.lookup key = some v) →
      m.GetOption name key = "") ∧
    (m.HasOption name key = true ↔
      ∃ c v, m.mounts name = some c ∧ c.opts.lookup key = some v) ∧
    (m.GetOptionAsBool name key = true ↔
      ∃ c v, m.mounts name = some c ∧ c.opts.lookup key = some v ∧
        (sameIgnoringCase v "yes" ∨ sameIgnoringCase v "true")) := by
  have hhas : m.HasOption name key = true ↔
      ∃ c v, m.mounts name = some c ∧ c.opts.lookup key = some v := by
    unfold mountManager.HasOption mountManager.HasOptions
    cases h : m.mounts name with
    | none => simp
    | some c =>
      cases hl : c.opts.lookup key with
      | none => simp [hl]
      | some v =>
        have hne : c.opts.length > 0 := by
          cases ho : c.opts with
          | nil => rw [ho] at hl; simp at hl
          | cons a l => simp
        simp [hl, hne]
  have hget : ∀ c v, m.mounts name = some c → c.opts.lookup key = some v →
      m.GetOption name key = v := by
    intro c v hc hv
    have : m.HasOption name key = true := hhas.mpr ⟨c, v, hc, hv⟩
    simp [mountManager.GetOption, this, hc, Opts.index, hv]
  have hnone : (¬ ∃ c v, m.mounts name = some c ∧ c.opts.lookup key = some v) →
      m.GetOption name key = "" := by
    intro hno
    have : ¬ m.HasOption name key = true := fun h => hno (hhas.mp h)
    simp [mountManager.GetOption, this]
  have hlow : ∀ v t : String, ToLower v = ToLower t ↔ sameIgnoringCase v t := by
    intro v t
    unfold ToLower sameIgnoringCase
    constructor
    · intro h; exact congrArg String.data h
    · intro h; rw [h]
  have hyes : ToLower "yes" = "yes" := by decide
  have htrue : ToLower "true" = "true" := by decide
  refine ⟨hget, hnone, hhas, ?_⟩
  unfold mountManager.GetOptionAsBool
  simp only []
  by_cases hex : ∃ c v, m.mounts name = some c ∧ c.opts.lookup key = some v
  · obtain ⟨c, v, hc, hv⟩ := hex
    rw [hget c v hc hv]
    constructor
    · intro h
      refine ⟨c, v, hc, hv, ?_⟩
      by_cases h1 : ToLower v = "yes"
      · left; rw [← hlow, h1, hyes]
      · by_cases h2 : ToLower v = "true"
        · right; rw [← hlow, h2, htrue]
        · simp [h1, h2] at h
    · rintro ⟨c2, v2, hc2, hv2, hor⟩
      rw [hc] at hc2
      cases hc2
      rw [hv] at hv2
      cases hv2
      rcases hor with h1 | h1
      · have := (hlow v "yes").mpr h1
        rw [hyes] at this
        simp [this]
      · have := (hlow v "true").mpr h1
        rw [htrue] at this
        simp [this]
  · rw [hnone hex]
    constructor
    · intro h
      exact absurd h (by decide)
    · rintro ⟨c, v, hc, hv, _⟩
      exact absurd ⟨c, v, hc, hv⟩ hex

theorem option_accessors_witness :
    (NewVolumeManager.Create "vol" "/mnt/vol" [("create", "TRUE")]).1.GetOption "vol" "create"
      = "TRUE" ∧
    (NewVolumeManager.Create "vol" "/mnt/vol" [("create", "TRUE")]).1.GetOption "vol" "share"
      = "" ∧
    (NewVolumeManager.Create "vol" "/mnt/vol" [("create", "TRUE")]).1.GetOptionAsBool "vol"
      "create" = true :=
  ⟨(option_accessors (NewVolumeManager.Create "vol" "/mnt/vol" [("create", "TRUE")]).1 "vol"
      "create").1 _ _ rfl rfl,
   (option_accessors (NewVolumeManager.Create "vol" "/mnt/vol" [("create", "TRUE")]).1 "vol"
      "share").2.1 (by
        rintro ⟨c, v, hc, hv⟩
        have : c = { name := "vol", hostdir := "/mnt/vol", connections := 0,
                     opts := [("create", "TRUE")], managed := true } :=
          (Option.some.inj hc).symm
        rw [this] at hv
        simp [List.lookup] at hv),
   (option_accessors (NewVolumeManager.Create "vol" "/mnt/vol" [("create", "TRUE")]).1 "vol"
      "create").2.2.2.mpr ⟨_, _, rfl, rfl, Or.inr rfl⟩⟩

/-- C20, as the code has it: `Create` on a name that is not active stores a managed
record with zero connections and the given options, and is a pure registry update (it
performs no external operation).  Provided the stored options together with the
daemon-wide ones do not hold both a secret and a secret file, the next `Mount` on a
host where every external operation succeeds takes the slow path: it runs exactly one
shell command, a `mount -t ceph` line, leaves the record with one connection, still
managed and with the stored options and host path, and returns `mountpoint(root, name)`. -/
theorem Mount_after_Create (n : cephDriver) (w : World) (r : MountRequest)
    (hostdir : String) (opts : Opts)
    (hna : n.mountm.IsActiveMount r.Name = false)
    (hconf : ¬ ((n.mountOptions opts).index "secretfile" ≠ "" ∧
      (n.mountOptions opts).index "secret" ≠ ""))
    (hw : w.allSucceed) :
    (n.mountm.Create r.Name hostdir opts).1.mounts r.Name =
      some { name := r.Name, hostdir := hostdir, connections := 0, opts := opts,
             managed := true } ∧
    (∃ a, execs (cephDriver.Mount
        { n with mountm := (n.mountm.Create r.Name hostdir opts).1 } w r).effects =
      ["mount -t ceph " ++ a]) ∧
    (cephDriver.Mount { n with mountm := (n.mountm.Create r.Name hostdir opts).1 } w r).resp =
      { Mountpoint := mountpoint w [n.root, r.Name], Err := "" } ∧
    (cephDriver.Mount
        { n with mountm := (n.mountm.Create r.Name hostdir opts).1 } w r).mountm.mounts r.Name =
      some { name := r.Name, hostdir := hostdir, connections := 1, opts := opts,
             managed := true } := by
  have hrec : (n.mountm.Create r.Name hostdir opts).1.mounts r.Name =
      some { name := r.Name, hostdir := hostdir, connections := 0, opts := opts,
             managed := true } := by
    unfold mountManager.IsActiveMount at hna
    unfold mountManager.Create
    cases hm : n.mountm.mounts r.Name with
    | none => simp
    | some c =>
      rw [hm] at hna
      have hc : ¬ c.connections > 0 := by simpa using hna
      simp [hc]
  have hna2 : (n.mountm.Create r.Name hostdir opts).1.IsActiveMount r.Name = false := by
    simp [mountManager.IsActiveMount, hrec]
  have hadd := mountManager.Add_present (n.mountm.Create r.Name hostdir opts).1 r.Name
    (mountpoint w [n.root, r.Name]) _ hrec
  have hopts : ((n.mountm.Create r.Name hostdir opts).1.Add r.Name
      (mountpoint w [n.root, r.Name])).GetOptions r.Name = opts := by
    rw [mountManager.GetOptions_of_record _ _ _ hadd]
  obtain ⟨hreg, hresp, a, hex⟩ := Mount_slow_success
    { n with mountm := (n.mountm.Create r.Name hostdir opts).1 } w r hna2
    (by
      show ¬ ((n.mountOptions (((n.mountm.Create r.Name hostdir opts).1.Add r.Name
          (mountpoint w [n.root, r.Name])).GetOptions r.Name)).index "secretfile" ≠ "" ∧
        (n.mountOptions (((n.mountm.Create r.Name hostdir opts).1.Add r.Name
          (mountpoint w [n.root, r.Name])).GetOptions r.Name)).index "secret" ≠ "")
      rw [hopts]
      exact hconf) hw
  refine ⟨hrec, ⟨a, hex⟩, hresp, ?_⟩
  rw [hreg]
  exact hadd

theorem Mount_after_Create_witness :
    calmWorld.allSucceed ∧
    (cephDriver.Mount
        { freshDriver with
            mountm := (freshDriver.mountm.Create "vol" "/mnt/vol" [("share", "mon1:/a")]).1 }
        calmWorld ⟨"vol", "1"⟩).mountm.mounts "vol" =
      some { name := "vol", hostdir := "/mnt/vol", connections := 1,
             opts := [("share", "mon1:/a")], managed := true } :=
  have hw : calmWorld.allSucceed := ⟨fun _ => rfl, fun _ => rfl, fun _ => rfl⟩
  ⟨hw,
   (Mount_after_Create freshDriver calmWorld ⟨"vol", "1"⟩ "/mnt/vol" [("share", "mon1:/a")]
      rfl (by decide) hw).2.2.2⟩

/-- C20 fails on the code: a volume created with both `secret` and `secretfile` is
stored as a managed record with zero connections, and the next `Mount`, on a host
where every external operation succeeds, prepares the directory, runs no mount command
and returns the conflicting-credentials error, leaving the record with one
connection. -/
theorem Mount_after_Create_counterexample :
    (createdDriver [("secret", "abc"), ("secretfile", "/path")]).mountm.mounts "vol" =
      some { name := "vol", hostdir := "/mnt/vol", connections := 0,
             opts := [("secret", "abc"), ("secretfile", "/path")], managed := true } ∧
    calmWorld.allSucceed ∧
    ((createdDriver [("secret", "abc"), ("secretfile", "/path")]).Mount calmWorld
        ⟨"vol", "1"⟩).effects = [.lstat "/mnt/vol", .mkdirAll "/mnt/vol"] ∧
    ((createdDriver [("secret", "abc"), ("secretfile", "/path")]).Mount calmWorld
        ⟨"vol", "1"⟩).resp =
      { Mountpoint := "", Err := "Cannot pass secret and secretfile options together" } ∧
    ((createdDriver [("secret", "abc"), ("secretfile", "/path")]).Mount calmWorld
        ⟨"vol", "1"⟩).mountm.Count "vol" = 1 := by
  refine ⟨rfl, ⟨fun _ => rfl, fun _ => rfl, fun _ => rfl⟩, by decide, by decide, by decide⟩

/-- C17, as the code has it: `BuildReferences` on an empty registry, when the
enumeration script succeeds and the result file holds one line per volume, made of the
name (without a space), exactly one space, and the reference count in decimal (within
the range of `int`), with distinct names: afterwards every name with a count above
zero has an unmanaged record with that many connections and host path
`mountpoint(rootPath, name)`, every name with count zero has no record, no other name
has a record, no error is returned, and the only shell command run is the enumeration
script (no mount). -/
theorem BuildReferences_counts (w : World) (rootPath driverType : String)
    (entries : List (String × Nat))
    (hnames : (entries.map Prod.fst).Nodup)
    (hspace : ∀ e ∈ entries, ' ' ∉ e.1.data)
    (hrange : ∀ e ∈ entries, e.2 < 2 ^ 63)
    (hscript : w.sh ("/usr/sbin/cosmos/build_volume_refs.sh " ++ driverType ++ " " ++ rootPath)
      = none)
    (hfile : w.scanLines ("/tmp/docker-volume-refs-" ++ driverType) =
      some (entries.map (fun e => e.1 ++ " " ++ toString e.2))) :
    (NewVolumeManager.BuildReferences w rootPath driverType).ret.2 = none ∧
    execs (NewVolumeManager.BuildReferences w rootPath driverType).effects =
      ["/usr/sbin/cosmos/build_volume_refs.sh " ++ driverType ++ " " ++ rootPath] ∧
    (∀ e ∈ entries, 0 < e.2 →
      (NewVolumeManager.BuildReferences w rootPath driverType).ret.1.mounts e.1 =
        some { name := e.1, hostdir := mountpoint w [rootPath, e.1], connections := e.2,
               opts := [], managed := false }) ∧
    (∀ e ∈ entries, e.2 = 0 →
      (NewVolumeManager.BuildReferences w rootPath driverType).ret.1.mounts e.1 = none) ∧
    (∀ x, x ∉ entries.map Prod.fst →
      (NewVolumeManager.BuildReferences w rootPath driverType).ret.1.mounts x = none) := by
  have hempty : ∀ x, NewVolumeManager.mounts x = none := fun _ => rfl
  have hb : NewVolumeManager.BuildReferences w rootPath driverType =
      ⟨((entries.map (fun e => e.1 ++ " " ++ toString e.2)).foldl
          (fun m line => m.refsLine w rootPath line) NewVolumeManager, none),
        [.exec ("/usr/sbin/cosmos/build_volume_refs.sh " ++ driverType ++ " " ++ rootPath),
         .openFile ("/tmp/docker-volume-refs-" ++ driverType)]⟩ := by
    simp [mountManager.BuildReferences, run, hscript, hfile]
  obtain ⟨h1, h2⟩ := refsLines_spec w rootPath entries NewVolumeManager hnames hspace hrange
    (fun e _ => hempty e.1)
  rw [hb]
  refine ⟨rfl, rfl, ?_, ?_, ?_⟩
  · intro e he hpos
    show ((entries.map (fun e => e.1 ++ " " ++ toString e.2)).foldl
          (fun m line => m.refsLine w rootPath line) NewVolumeManager).mounts e.1 = _
    rw [h1 e he]
    exact mountManager.addRefs_absent w rootPath e.1 e.2 hpos _ (hempty e.1)
  · intro e he hz
    show ((entries.map (fun e => e.1 ++ " " ++ toString e.2)).foldl
          (fun m line => m.refsLine w rootPath line) NewVolumeManager).mounts e.1 = _
    rw [h1 e he, hz]
    rfl
  · intro x hx
    exact h2 x hx

theorem BuildReferences_counts_witness :
    (NewVolumeManager.BuildReferences (refsWorld ["myvol 3"]) "/mnt" "ceph").ret.1.mounts
        "myvol" =
      some { name := "myvol", hostdir := "/mnt/myvol", connections := 3, opts := [],
             managed := false } ∧
    execs (NewVolumeManager.BuildReferences (refsWorld ["myvol 3"]) "/mnt" "ceph").effects =
      ["/usr/sbin/cosmos/build_volume_refs.sh ceph /mnt"] :=
  have h := BuildReferences_counts (refsWorld ["myvol 3"]) "/mnt" "ceph" [("myvol", 3)]
    (by decide) (by decide) (by decide) rfl rfl
  ⟨h.2.2.1 ("myvol", 3) (by simp) (by decide), h.2.1⟩

/-- C17 fails on the code: a line whose name and count are separated by a tab, or by
two spaces, is skipped, so `myvol` with count 3 gets no record. -/
theorem BuildReferences_counterexample :
    (NewVolumeManager.BuildReferences (refsWorld ["myvol\t3"]) "/mnt" "ceph").ret.1.mounts
        "myvol" = none ∧
    (NewVolumeManager.BuildReferences (refsWorld ["myvol  3"]) "/mnt" "ceph").ret.1.mounts
        "myvol" = none ∧
    (NewVolumeManager.BuildReferences (refsWorld ["myvol 3"]) "/mnt" "ceph").ret.1.Count
        "myvol" = 3 := by
  refine ⟨by decide, by decide, by decide⟩

end Netshare
